import Mathlib

/-!
Verification of the OCR web app's core pipeline: the retrying inference
client (`call_gemini_with_retry`), the prompt builder (`build_prompt`),
the business-card response parser (`parse_business_card_response`), the
record validator (`validate_business_card_data`) and the export encoders
(`generate_vcard`, `generate_csv`, `generate_json`).

The Python sources are embedded shallowly:

* Python strings are Lean `String`s; positional operations (`find`,
  slicing, `strip`, `in`) are modelled on the underlying `List Char`,
  matching Python's code-point indexing.
* Python values flowing through the parser / encoders (the result of
  `json.loads`) are modelled by the inductive type `Json`.  JSON numbers
  are modelled as integers; floating-point literals are outside the
  scope of this embedding (no claim mentions them).
* Exceptions are modelled with `Except String`; an uncaught `TypeError` /
  `AttributeError` inside a modelled function becomes `Except.error`.
* The real-time sleeps of the retry loop are recorded as a list of
  rational durations in the returned trace.
-/

/- ================== Character-list string utilities ================== -/

/-- Boolean prefix test on character lists (`pat` is a prefix of the list). -/
def isPrefixL : List Char → List Char → Bool
  | [], _ => true
  | _ :: _, [] => false
  | a :: as, b :: bs => a == b && isPrefixL as bs

/-- Index of the first occurrence of `pat`, Python `str.find` style
(`none` when absent). -/
def findSub (pat : List Char) : List Char → Option Nat
  | [] => if isPrefixL pat [] then some 0 else none
  | s@(_ :: rest) => if isPrefixL pat s then some 0 else (findSub pat rest).map (· + 1)

/-- Substring containment on character lists (Python `pat in s`). -/
def containsL (pat s : List Char) : Bool := (findSub pat s).isSome

/-- Python `pat in s` on strings. -/
def strContains (s pat : String) : Bool := containsL pat.data s.data

/-- The whitespace characters stripped by Python `str.strip()` (ASCII part). -/
def isPyWS (c : Char) : Bool :=
  c = ' ' || c = '\t' || c = '\n' || c = '\r' || c = '\x0b' || c = '\x0c'

/-- Drop trailing characters satisfying `p`. -/
def dropEndWhile (p : Char → Bool) (l : List Char) : List Char :=
  (l.reverse.dropWhile p).reverse

/-- Python `str.strip()` on a character list. -/
def pyStripL (l : List Char) : List Char :=
  dropEndWhile isPyWS (l.dropWhile isPyWS)

/-- Python `str.strip()`. -/
def pyStrip (s : String) : String := ⟨pyStripL s.data⟩

/-- Python `s.find(pat, start)`: absolute index of the first occurrence at or
after `start`, `-1` when absent. -/
def pyFindFrom (s pat : List Char) (start : Nat) : Int :=
  match findSub pat (s.drop start) with
  | some i => (start + i : Nat)
  | none => -1

/-- Python slice `s[start:stop]` with a possibly negative `stop`
(as produced by `find` returning `-1`). -/
def pySlice (s : List Char) (start : Nat) (stop : Int) : List Char :=
  let n : Int := s.length
  let stopN : Nat := (min (if stop < 0 then n + stop else stop) n).toNat
  (s.take stopN).drop start

/- ================== Facts about the string utilities ================== -/

theorem isPrefixL_iff (p l : List Char) :
    isPrefixL p l = true ↔ ∃ r, l = p ++ r := by
  induction p generalizing l with
  | nil => simp [isPrefixL]
  | cons a as ih =>
    cases l with
    | nil => simp [isPrefixL]
    | cons b bs =>
      simp only [isPrefixL, Bool.and_eq_true, beq_iff_eq, ih]
      constructor
      · rintro ⟨rfl, r, rfl⟩; exact ⟨r, rfl⟩
      · rintro ⟨r, h⟩
        cases h
        exact ⟨rfl, r, rfl⟩

theorem isPrefixL_self_append (p r : List Char) : isPrefixL p (p ++ r) = true :=
  (isPrefixL_iff p (p ++ r)).2 ⟨r, rfl⟩

theorem containsL_iff (p l : List Char) :
    containsL p l = true ↔ ∃ u v, l = u ++ p ++ v := by
  induction l with
  | nil =>
    simp only [containsL, findSub, Option.isSome]
    constructor
    · intro h
      have hp : isPrefixL p [] = true := by
        by_contra hc
        simp [Bool.not_eq_true] at hc
        simp [hc] at h
      rcases (isPrefixL_iff p []).1 hp with ⟨r, hr⟩
      have hp0 : p = [] := by
        cases p with
        | nil => rfl
        | cons a as => simp at hr
      exact ⟨[], [], by simp [hp0]⟩
    · rintro ⟨u, v, huv⟩
      have hu : u = [] ∧ p ++ v = [] := by
        constructor
        · cases u with
          | nil => rfl
          | cons a as => simp at huv
        · cases u with
          | nil => simpa using huv.symm
          | cons a as => simp at huv
      have hp0 : p = [] := by
        rcases hu with ⟨_, h2⟩
        cases p with
        | nil => rfl
        | cons a as => simp at h2
      simp [hp0, isPrefixL]
  | cons b bs ih =>
    have hstep : containsL p (b :: bs)
        = (isPrefixL p (b :: bs) || containsL p bs) := by
      by_cases hpre : isPrefixL p (b :: bs) = true
      · simp [containsL, findSub, hpre]
      · simp only [Bool.not_eq_true] at hpre
        simp [containsL, findSub, hpre]
    rw [hstep]
    constructor
    · intro h
      rcases Bool.or_eq_true_iff.1 h with hpre | hbs
      · rcases (isPrefixL_iff p (b :: bs)).1 hpre with ⟨r, hr⟩
        exact ⟨[], r, by simpa using hr⟩
      · rcases ih.1 hbs with ⟨u, v, rfl⟩
        exact ⟨b :: u, v, by simp⟩
    · rintro ⟨u, v, huv⟩
      rcases u with _ | ⟨c, cs⟩
      · have : isPrefixL p (b :: bs) = true := by
          rw [isPrefixL_iff]
          exact ⟨v, by simpa using huv⟩
        simp [this]
      · simp only [List.cons_append, List.cons.injEq] at huv
        have hbs : containsL p bs = true := ih.2 ⟨cs, v, huv.2⟩
        simp [hbs]

theorem containsL_append_of_right (p u v : List Char)
    (h : containsL p v = true) : containsL p (u ++ v) = true := by
  rcases (containsL_iff p v).1 h with ⟨a, b, rfl⟩
  exact (containsL_iff p _).2 ⟨u ++ a, b, by simp⟩

theorem containsL_mid (p u v : List Char) : containsL p (u ++ p ++ v) = true :=
  (containsL_iff p _).2 ⟨u, v, rfl⟩

/-- Containment is inherited from an embedded middle segment. -/
theorem containsL_of_sandwich (p a m b : List Char)
    (h : containsL p m = true) : containsL p (a ++ m ++ b) = true := by
  rcases (containsL_iff p m).1 h with ⟨u, v, rfl⟩
  exact (containsL_iff p _).2 ⟨a ++ u, v ++ b, by simp⟩

theorem dropWhile_eq_drop_len (p : Char → Bool) (l : List Char) :
    ∃ n, l.dropWhile p = l.drop n := by
  induction l with
  | nil => exact ⟨0, rfl⟩
  | cons a as ih =>
    by_cases h : p a
    · rcases ih with ⟨n, hn⟩
      exact ⟨n + 1, by simp [List.dropWhile, h, hn]⟩
    · exact ⟨0, by simp [List.dropWhile, h]⟩

/-- `pyStripL l` is a contiguous segment of `l`. -/
theorem pyStripL_sandwich (l : List Char) :
    ∃ a b, l = a ++ pyStripL l ++ b := by
  rcases dropWhile_eq_drop_len isPyWS l with ⟨n, hn⟩
  rcases dropWhile_eq_drop_len isPyWS (l.drop n).reverse with ⟨m, hm⟩
  refine ⟨l.take n, ((l.drop n).reverse.take m).reverse, ?_⟩
  have h1 : pyStripL l = ((l.drop n).reverse.drop m).reverse := by
    simp [pyStripL, dropEndWhile, hn, hm]
  rw [h1, List.append_assoc, ← List.reverse_append, List.take_append_drop,
    List.reverse_reverse, List.take_append_drop]

/- ================== Inference client with retry ================== -/

/-- Rate-limit classification from `call_gemini_with_retry`:
`"429" in error_msg or "RESOURCE_EXHAUSTED" in error_msg`. -/
def isRateLimitError (msg : String) : Bool :=
  strContains msg "429" || strContains msg "RESOURCE_EXHAUSTED"

/-- Observable trace of one `call_gemini_with_retry` invocation: the returned
`(success, payload)` pair as an `Except`, the sequence of back-off sleeps (in
seconds) and the number of endpoint calls made. -/
structure RetryTrace where
  result : Except String String
  sleeps : List ℚ
  attempts : Nat

/-- The loop body of `call_gemini_with_retry`; `attempt` is the Python loop
index and `remaining = max_retries - attempt` the retries still allowed.  The
endpoint is modelled by `oracle`, mapping an attempt index to either a
response text or the exception's message. -/
def retryAux (oracle : Nat → Except String String) (initial_delay : ℚ) :
    Nat → Nat → RetryTrace
  | attempt, remaining =>
    match oracle attempt with
    | .ok r => ⟨.ok r, [], 1⟩
    | .error e =>
      if isRateLimitError e then
        match remaining with
        | 0 => ⟨.error e, [], 1⟩
        | r + 1 =>
          let wait := initial_delay * 2 ^ attempt
          let rest := retryAux oracle initial_delay (attempt + 1) r
          ⟨rest.result, wait :: rest.sleeps, rest.attempts + 1⟩
      else ⟨.error e, [], 1⟩
  termination_by attempt remaining => remaining

/-- `call_gemini_with_retry(client, model, contents, max_retries, initial_delay)`
from `src/utils/ocr_processor.py`.  The final `return False, last_error` of the
source is unreachable (the last loop iteration returns directly), so the loop
is the whole behaviour. -/
def call_gemini_with_retry (oracle : Nat → Except String String)
    (max_retries : Nat) (initial_delay : ℚ) : RetryTrace :=
  retryAux oracle initial_delay 0 max_retries

/-- C1: against an endpoint that is rate-limited exactly `N` times and then
succeeds, the client (with `max_retries = 3`, `initial_delay = 2`) returns
success after exactly `N` retries when `N ≤ 3`, sleeping
`initial_delay * 2 ^ i` seconds before retry `i` for a cumulative
`2 + 4 + ⋯ + 2 ^ N = 2 ^ (N + 1) - 2` seconds; when `N > 3` it returns the
rate-limit failure after exactly 3 retries (4 attempts, sleeps 2, 4, 8). -/
theorem retry_rate_limit_schedule (N : Nat) (resp : String) (errs : Nat → String)
    (hrl : ∀ i, i < N → isRateLimitError (errs i) = true) :
    (N ≤ 3 →
      call_gemini_with_retry
          (fun i => if i < N then Except.error (errs i) else Except.ok resp) 3 2 =
        ⟨Except.ok resp, (List.range N).map (fun i => (2 : ℚ) * 2 ^ i), N + 1⟩ ∧
      ((List.range N).map (fun i => (2 : ℚ) * 2 ^ i)).sum = 2 ^ (N + 1) - 2) ∧
    (3 < N →
      call_gemini_with_retry
          (fun i => if i < N then Except.error (errs i) else Except.ok resp) 3 2 =
        ⟨Except.error (errs 3), [2, 4, 8], 4⟩) := by
  constructor
  · intro hN
    interval_cases N
    · simp [call_gemini_with_retry, retryAux]
    · have h0 := hrl 0 (by omega)
      constructor
      · simp [call_gemini_with_retry, retryAux, h0]
        norm_num [List.range_succ]
      · norm_num [List.range_succ]
    · have h0 := hrl 0 (by omega)
      have h1 := hrl 1 (by omega)
      constructor
      · simp [call_gemini_with_retry, retryAux, h0, h1]
        norm_num [List.range_succ]
      · norm_num [List.range_succ]
    · have h0 := hrl 0 (by omega)
      have h1 := hrl 1 (by omega)
      have h2 := hrl 2 (by omega)
      constructor
      · simp [call_gemini_with_retry, retryAux, h0, h1, h2]
        norm_num [List.range_succ]
      · norm_num [List.range_succ]
  · intro hN
    have h0 := hrl 0 (by omega)
    have h1 := hrl 1 (by omega)
    have h2 := hrl 2 (by omega)
    have h3 := hrl 3 (by omega)
    have e0 : (0 : Nat) < N := by omega
    have e1 : (1 : Nat) < N := by omega
    have e2 : (2 : Nat) < N := by omega
    have e3 : (3 : Nat) < N := by omega
    simp [call_gemini_with_retry, retryAux, h0, h1, h2, h3, e0, e1, e2, e3]
    norm_num

/-- Witness for C1 at `N = 2`: two 429 failures then success. -/
theorem retry_rate_limit_schedule_witness :
    call_gemini_with_retry
        (fun i => if i < 2 then Except.error ((fun _ => "429 quota") i)
                  else Except.ok "text") 3 2 =
      ⟨Except.ok "text", [2, 4], 3⟩ := by
  have h := (retry_rate_limit_schedule 2 "text" (fun _ => "429 quota")
    (fun _ _ => rfl)).1 (by omega)
  have h2 : (List.range 2).map (fun i => (2 : ℚ) * 2 ^ i) = [2, 4] := by
    norm_num [List.range_succ]
  rw [h2] at h
  exact h.1

/-- C5: an attempt that fails with a non-rate-limit error terminates the
client immediately with that error: no sleep, no further attempt, whatever
the retry budget. -/
theorem retry_non_rate_limit_immediate (oracle : Nat → Except String String)
    (d : ℚ) (e : String) (hnr : isRateLimitError e = false) :
    (∀ attempt remaining, oracle attempt = Except.error e →
      retryAux oracle d attempt remaining = ⟨Except.error e, [], 1⟩) ∧
    (oracle 0 = Except.error e →
      ∀ max_retries, call_gemini_with_retry oracle max_retries d =
        ⟨Except.error e, [], 1⟩) := by
  constructor
  · intro attempt remaining he
    cases remaining <;> simp [retryAux, he, hnr]
  · intro he max_retries
    cases max_retries <;> simp [call_gemini_with_retry, retryAux, he, hnr]

/-- Witness for C5: a `500`-style failure on the very first attempt with the
full retry budget available. -/
theorem retry_non_rate_limit_immediate_witness :
    retryAux (fun _ => Except.error "500 server error") 2 0 3 =
      ⟨Except.error "500 server error", [], 1⟩ ∧
    call_gemini_with_retry (fun _ => Except.error "500 server error") 3 2 =
      ⟨Except.error "500 server error", [], 1⟩ := by
  have h := retry_non_rate_limit_immediate
    (fun _ => Except.error "500 server error") 2 "500 server error" rfl
  exact ⟨h.1 0 3 rfl, h.2 rfl 3⟩

/- ================== The Python value model ================== -/

/-- Python values produced by `json.loads` and flowing through the parser,
validator and encoders.  JSON numbers are modelled as integers
(floating-point literals are outside the scope of this embedding; no claim
involves them).  Python dicts are association lists in insertion order. -/
inductive Json where
  | null
  | bool (b : Bool)
  | num (n : Int)
  | str (s : String)
  | arr (elems : List Json)
  | obj (fields : List (String × Json))
deriving BEq

/-- Python truthiness `bool(v)` for the modelled values. -/
def jsonTruthy : Json → Bool
  | .null => false
  | .bool b => b
  | .num n => n != 0
  | .str s => s != ""
  | .arr xs => !xs.isEmpty
  | .obj fs => !fs.isEmpty

/-- Truthiness of Python `value.strip()`: the string has a non-whitespace
character. -/
def hasNonWS (s : String) : Bool := s.data.any (fun c => !isPyWS c)

/-- Key lookup in a modelled dict (`data.get(key)` / `key in data`). -/
def lookupKey (fields : List (String × Json)) (k : String) : Option Json :=
  match fields with
  | [] => none
  | (k', v) :: rest => if k' = k then some v else lookupKey rest k

/-- Python `data.get(key, dflt)` on a modelled dict. -/
def pyGetD (fields : List (String × Json)) (k : String) (dflt : Json) : Json :=
  match lookupKey fields k with
  | some v => v
  | none => dflt

/- ================== Record validator ================== -/

/-- `validate_business_card_data(data)` from `src/utils/vcard_generator.py`:
scan the items; a truthy value that is a (necessarily non-empty) list, or a
string whose `strip()` is truthy, makes the record valid. -/
def validate_business_card_data (data : List (String × Json)) : Bool :=
  data.any fun kv =>
    jsonTruthy kv.2 &&
      (match kv.2 with
       | .arr xs => decide (xs.length > 0)
       | .str s => hasNonWS s
       | _ => false)

/-- `default_data` from `parse_business_card_response`: every scalar field
null, `phone` and `email` the empty list, in source order. -/
def default_data : List (String × Json) :=
  [("name", .null), ("name_kana", .null), ("company", .null),
   ("department", .null), ("title", .null), ("phone", .arr []),
   ("mobile", .null), ("fax", .null), ("email", .arr []),
   ("website", .null), ("address", .null)]

/-- Modelled from the spec: the Record Validator rule as the specification
words it — "true iff at least one field is a non-empty string, or a
non-empty sequence with at least one non-empty element". -/
def specValidRule (data : List (String × Json)) : Bool :=
  data.any fun kv =>
    match kv.2 with
    | .str s => s != ""
    | .arr xs =>
      !xs.isEmpty && xs.any (fun e =>
        match e with
        | .str t => t != ""
        | v => jsonTruthy v)
    | _ => false

/-- The contact record with `phone = [""]` and every other field at its
default. -/
def recPhoneEmptyStr : List (String × Json) :=
  [("name", .null), ("name_kana", .null), ("company", .null),
   ("department", .null), ("title", .null), ("phone", .arr [.str ""]),
   ("mobile", .null), ("fax", .null), ("email", .arr []),
   ("website", .null), ("address", .null)]

/-- The contact record with `phone = ["090-0000-0000"]` and every other field
at its default. -/
def recPhone090 : List (String × Json) :=
  [("name", .null), ("name_kana", .null), ("company", .null),
   ("department", .null), ("title", .null),
   ("phone", .arr [.str "090-0000-0000"]),
   ("mobile", .null), ("fax", .null), ("email", .arr []),
   ("website", .null), ("address", .null)]

/-- C3 counterexample: on the record whose only populated field is
`phone = [""]` — a non-empty sequence with no non-empty element — the code
returns `true` while the claimed rule returns `false`, so the claimed
"if and only if" fails. -/
theorem validate_ne_spec_rule_at_phone_empty_str :
    validate_business_card_data recPhoneEmptyStr = true ∧
    specValidRule recPhoneEmptyStr = false := by
  constructor <;> decide

/-- Per-value form of the validator's test. -/
theorem validate_elem_iff (v : Json) :
    (jsonTruthy v &&
      (match v with
       | .arr xs => decide (xs.length > 0)
       | .str s => hasNonWS s
       | _ => false)) = true ↔
    (∃ xs, v = Json.arr xs ∧ xs ≠ []) ∨
      (∃ s, v = Json.str s ∧ hasNonWS s = true) := by
  cases v with
  | null => simp [jsonTruthy]
  | bool b => simp [jsonTruthy]
  | num n => simp [jsonTruthy]
  | str s =>
    simp only [jsonTruthy, Bool.and_eq_true, bne_iff_ne]
    constructor
    · rintro ⟨-, h⟩
      exact Or.inr ⟨s, rfl, h⟩
    · rintro (⟨xs, h, -⟩ | ⟨t, ht, h⟩)
      · exact absurd h (by simp)
      · cases ht
        refine ⟨?_, h⟩
        rintro rfl
        exact absurd h (by decide)
  | arr xs =>
    constructor
    · intro h
      have hne : xs ≠ [] := by
        intro hx
        subst hx
        simp [jsonTruthy] at h
      exact Or.inl ⟨xs, rfl, hne⟩
    · rintro (⟨ys, hy, h⟩ | ⟨t, ht, -⟩)
      · cases hy
        cases xs with
        | nil => exact absurd rfl h
        | cons a as => simp [jsonTruthy]
      · exact absurd ht (by simp)
  | obj fs => simp [jsonTruthy]

/-- C3 (amended): the validator returns `true` iff at least one field holds a
non-empty sequence (regardless of its elements' contents) or a string
containing a non-whitespace character; in particular the record with
`phone = []` and all other fields null is unusable, and the record with
`phone = ["090-0000-0000"]` is usable. -/
theorem validate_iff_nonempty_list_or_nonblank_string :
    (∀ data : List (String × Json),
      validate_business_card_data data = true ↔
        ∃ kv ∈ data,
          (∃ xs, kv.2 = Json.arr xs ∧ xs ≠ []) ∨
            (∃ s, kv.2 = Json.str s ∧ hasNonWS s = true)) ∧
    validate_business_card_data default_data = false ∧
    validate_business_card_data recPhone090 = true := by
  refine ⟨fun data => ?_, by decide, by decide⟩
  unfold validate_business_card_data
  rw [List.any_eq_true]
  constructor
  · rintro ⟨kv, hmem, hkv⟩
    exact ⟨kv, hmem, (validate_elem_iff kv.2).1 hkv⟩
  · rintro ⟨kv, hmem, hkv⟩
    exact ⟨kv, hmem, (validate_elem_iff kv.2).2 hkv⟩

/- ================== Prompt builder ================== -/

/-- `LANGUAGE_OPTIONS` from `src/utils/config.py`. -/
def LANGUAGE_OPTIONS : List (String × String) :=
  [("自動検出", ""), ("日本語", "日本語で"), ("英語", "英語で"),
   ("中国語", "中国語で"), ("韓国語", "韓国語で")]

/-- `OUTPUT_FORMAT_OPTIONS` from `src/utils/config.py`. -/
def OUTPUT_FORMAT_OPTIONS : List (String × String) :=
  [("プレーンテキスト", "plain"), ("マークダウン", "markdown"),
   ("表形式（表が含まれる場合）", "table")]

/-- `DETAIL_OPTIONS` from `src/utils/config.py`. -/
def DETAIL_OPTIONS : List (String × String) :=
  [("正確な転写", "exact"), ("要約付き転写", "summary")]

/-- Python `d.get(key, dflt)` for the string-valued option dicts. -/
def pyDictGet (d : List (String × String)) (key dflt : String) : String :=
  match d.lookup key with
  | some v => v
  | none => dflt

/-- The fixed base instruction of `build_prompt`. -/
def basePrompt : String := "この画像内のすべての文字を正確に読み取ってください。"

/-- The markdown-format clause of `build_prompt`. -/
def markdownClause : String :=
  "\n出力はマークダウン形式で整形してください。見出しやリスト、強調などを適切に使用してください。"

/-- The table-format clause of `build_prompt`. -/
def tableClause : String :=
  "\n表が含まれている場合は、マークダウンのテーブル形式で出力してください。"

/-- The summary clause of `build_prompt`. -/
def summaryClause : String :=
  "\n読み取った内容の要約も最後に追加してください。"

/-- `build_prompt(language, output_format, detail)` from
`src/utils/ocr_processor.py`. -/
def build_prompt (language output_format detail : String) : String :=
  let lang_prefix := pyDictGet LANGUAGE_OPTIONS language ""
  let format_type := pyDictGet OUTPUT_FORMAT_OPTIONS output_format "plain"
  let detail_type := pyDictGet DETAIL_OPTIONS detail "exact"
  let p1 := if lang_prefix ≠ "" then lang_prefix ++ "、" ++ basePrompt else basePrompt
  let p2 :=
    if format_type = "markdown" then p1 ++ markdownClause
    else if format_type = "table" then p1 ++ tableClause
    else p1
  if detail_type = "summary" then p2 ++ summaryClause else p2

/-- `build_ocr_prompt(language, output_format, detail)` from
`src/templates/base_ocr.py` (a verbatim duplicate of `build_prompt`). -/
def build_ocr_prompt (language output_format detail : String) : String :=
  let lang_prefix := pyDictGet LANGUAGE_OPTIONS language ""
  let format_type := pyDictGet OUTPUT_FORMAT_OPTIONS output_format "plain"
  let detail_type := pyDictGet DETAIL_OPTIONS detail "exact"
  let p1 := if lang_prefix ≠ "" then lang_prefix ++ "、" ++ basePrompt else basePrompt
  let p2 :=
    if format_type = "markdown" then p1 ++ markdownClause
    else if format_type = "table" then p1 ++ tableClause
    else p1
  if detail_type = "summary" then p2 ++ summaryClause else p2

/-- Index of the first occurrence of `pat` in `s` (`none` when absent). -/
def firstOccIdx (s pat : String) : Option Nat := findSub pat.data s.data

/-- The first occurrence of `a` is at or before the first occurrence of `b`
(both must occur). -/
def occursInOrder (s a b : String) : Bool :=
  match firstOccIdx s a, firstOccIdx s b with
  | some i, some j => decide (i ≤ j)
  | _, _ => false

/-- C4 counterexample: with Japanese selected the language clause occupies
index 0 and the base instruction starts only at index 5, so the clauses do
not appear in the claimed order base → language. -/
theorem prompt_base_not_before_language :
    occursInOrder (build_prompt "日本語" "プレーンテキスト" "正確な転写")
        basePrompt "日本語で" = false ∧
    firstOccIdx (build_prompt "日本語" "プレーンテキスト" "正確な転写")
        "日本語で" = some 0 ∧
    firstOccIdx (build_prompt "日本語" "プレーンテキスト" "正確な転写")
        basePrompt = some 5 := by
  refine ⟨by decide, by decide, by decide⟩

/-- `dict.get` yields the default or one of the stored values. -/
theorem pyDictGet_mem (d : List (String × String)) (k dflt : String) :
    pyDictGet d k dflt ∈ dflt :: d.map Prod.snd := by
  induction d with
  | nil => simp [pyDictGet, List.lookup]
  | cons a as ih =>
    by_cases h : k = a.1
    · simp [pyDictGet, List.lookup, h]
    · have hb : (k == a.1) = false := beq_eq_false_iff_ne.2 h
      have heq : pyDictGet (a :: as) k dflt = pyDictGet as k dflt := by
        simp [pyDictGet, List.lookup, hb]
      rw [heq]
      rcases List.mem_cons.1 ih with hh | hh
      · exact List.mem_cons.2 (Or.inl hh)
      · simp only [List.map_cons]
        exact List.mem_cons.2 (Or.inr (List.mem_cons.2 (Or.inr hh)))

/-- The clause-assembly step of `build_prompt`, abstracted over the three
looked-up option tokens. -/
def assemblePrompt (p f d : String) : String :=
  let p1 := if p ≠ "" then p ++ "、" ++ basePrompt else basePrompt
  let p2 :=
    if f = "markdown" then p1 ++ markdownClause
    else if f = "table" then p1 ++ tableClause
    else p1
  if d = "summary" then p2 ++ summaryClause else p2

theorem build_prompt_eq_assemble (language output_format detail : String) :
    build_prompt language output_format detail =
      assemblePrompt (pyDictGet LANGUAGE_OPTIONS language "")
        (pyDictGet OUTPUT_FORMAT_OPTIONS output_format "plain")
        (pyDictGet DETAIL_OPTIONS detail "exact") := rfl

theorem assemblePrompt_decomp (p f d : String) :
    assemblePrompt p f d =
      (if p = "" then "" else p ++ "、") ++ basePrompt ++
        (if f = "markdown" then markdownClause
         else if f = "table" then tableClause else "") ++
        (if d = "summary" then summaryClause else "") := by
  by_cases hp : p = "" <;>
    by_cases hf1 : f = "markdown" <;>
    by_cases hf2 : f = "table" <;>
    by_cases hd : d = "summary" <;>
    simp [assemblePrompt, hp, hf1, hf2, hd, String.append_assoc]

/-- C4 (amended): for every option combination (arbitrary selector strings)
the prompt builder's output contains the fixed base instruction as a
substring and decomposes as language-part ++ base ++ format-part ++
detail-part, i.e. the optional clauses appear in the fixed textual order
language → base → format → detail (the language clause precedes the base
instruction, not the other way around); the duplicate `build_ocr_prompt`
agrees with `build_prompt` everywhere. -/
theorem prompt_contains_base_and_clause_order :
    ∀ language output_format detail : String,
      strContains (build_prompt language output_format detail) basePrompt
        = true ∧
      (∃ L F D, build_prompt language output_format detail
          = L ++ basePrompt ++ F ++ D ∧
        L ∈ ["", "日本語で、", "英語で、", "中国語で、", "韓国語で、"] ∧
        F ∈ ["", markdownClause, tableClause] ∧
        D ∈ ["", summaryClause]) ∧
      build_ocr_prompt language output_format detail
        = build_prompt language output_format detail := by
  intro language output_format detail
  have hL := pyDictGet_mem LANGUAGE_OPTIONS language ""
  have hF := pyDictGet_mem OUTPUT_FORMAT_OPTIONS output_format "plain"
  have hD := pyDictGet_mem DETAIL_OPTIONS detail "exact"
  have hdec : ∃ L F D, build_prompt language output_format detail
      = L ++ basePrompt ++ F ++ D ∧
      L ∈ ["", "日本語で、", "英語で、", "中国語で、", "韓国語で、"] ∧
      F ∈ ["", markdownClause, tableClause] ∧
      D ∈ ["", summaryClause] := by
    refine ⟨if pyDictGet LANGUAGE_OPTIONS language "" = "" then ""
            else pyDictGet LANGUAGE_OPTIONS language "" ++ "、",
      if pyDictGet OUTPUT_FORMAT_OPTIONS output_format "plain" = "markdown"
        then markdownClause
      else if pyDictGet OUTPUT_FORMAT_OPTIONS output_format "plain" = "table"
        then tableClause else "",
      if pyDictGet DETAIL_OPTIONS detail "exact" = "summary"
        then summaryClause else "",
      by rw [build_prompt_eq_assemble, assemblePrompt_decomp], ?_, ?_, ?_⟩
    · rw [show List.map Prod.snd LANGUAGE_OPTIONS
          = ["", "日本語で", "英語で", "中国語で", "韓国語で"] from rfl] at hL
      simp only [List.mem_cons, List.not_mem_nil, or_false] at hL
      rcases hL with h | h | h | h | h | h <;> rw [h] <;> decide
    · rw [show List.map Prod.snd OUTPUT_FORMAT_OPTIONS
          = ["plain", "markdown", "table"] from rfl] at hF
      simp only [List.mem_cons, List.not_mem_nil, or_false] at hF
      rcases hF with h | h | h | h <;> rw [h] <;> decide
    · rw [show List.map Prod.snd DETAIL_OPTIONS
          = ["exact", "summary"] from rfl] at hD
      simp only [List.mem_cons, List.not_mem_nil, or_false] at hD
      rcases hD with h | h | h <;> rw [h] <;> decide
  refine ⟨?_, hdec, rfl⟩
  rcases hdec with ⟨L, F, D, hEq, -, -, -⟩
  rw [hEq]
  show containsL basePrompt.data (L ++ basePrompt ++ F ++ D).data = true
  rw [String.data_append, String.data_append, String.data_append]
  exact (containsL_iff _ _).2 ⟨L.data, F.data ++ D.data, by simp⟩

/- ================== JSON parsing (model of json.loads) ================== -/

/-- JSON insignificant whitespace. -/
def isJsonWS (c : Char) : Bool := c = ' ' || c = '\t' || c = '\n' || c = '\r'

/-- Skip insignificant whitespace. -/
def skipWs (s : List Char) : List Char := s.dropWhile isJsonWS

/-- Decimal digit test. -/
def isDigitC (c : Char) : Bool := '0' ≤ c && c ≤ '9'

/-- Value of a hex digit. -/
def hexVal (c : Char) : Option Nat :=
  if '0' ≤ c ∧ c ≤ '9' then some (c.toNat - 48)
  else if 'a' ≤ c ∧ c ≤ 'f' then some (c.toNat - 87)
  else if 'A' ≤ c ∧ c ≤ 'F' then some (c.toNat - 55)
  else none

/-- The short escapes accepted by `json.loads`. -/
def escChar : Char → Option Char
  | '"' => some '"'
  | '\\' => some '\\'
  | '/' => some '/'
  | 'b' => some '\x08'
  | 'f' => some '\x0c'
  | 'n' => some '\n'
  | 'r' => some '\r'
  | 't' => some '\t'
  | _ => none

/-- Parse a JSON string body up to the closing quote, unescaping as
`json.loads` does (strict mode: raw control characters are rejected). -/
def parseStringBody : List Char → Option (List Char × List Char)
  | [] => none
  | c :: rest =>
    if c = '"' then some ([], rest)
    else if c = '\\' then
      match rest with
      | 'u' :: h1 :: h2 :: h3 :: h4 :: rest2 =>
        match hexVal h1, hexVal h2, hexVal h3, hexVal h4 with
        | some a, some b, some c3, some d =>
          (parseStringBody rest2).map
            (fun p => (Char.ofNat (((a * 16 + b) * 16 + c3) * 16 + d) :: p.1, p.2))
        | _, _, _, _ => none
      | e :: rest2 =>
        match escChar e with
        | some c' => (parseStringBody rest2).map (fun p => (c' :: p.1, p.2))
        | none => none
      | [] => none
    else if c.toNat < 32 then none
    else (parseStringBody rest).map (fun p => (c :: p.1, p.2))

/-- Value of a decimal digit string. -/
def digitsToNat (l : List Char) : Nat :=
  l.foldl (fun a c => 10 * a + (c.toNat - 48)) 0

/-- Parse an unsigned JSON number.  Numbers are modelled as integers: a
fractional or exponent continuation is rejected (floating point is outside
this embedding), and leading zeros are accepted slightly more liberally
than `json.loads`. -/
def parseUIntNum (s : List Char) : Option (Nat × List Char) :=
  let ds := s.takeWhile isDigitC
  let rest := s.dropWhile isDigitC
  if ds.isEmpty then none
  else
    match rest with
    | '.' :: _ => none
    | 'e' :: _ => none
    | 'E' :: _ => none
    | _ => some (digitsToNat ds, rest)

/-- Parse a JSON number with optional leading minus. -/
def parseIntNum (s : List Char) : Option (Int × List Char) :=
  match s with
  | '-' :: rest => (parseUIntNum rest).map (fun p => (-(p.1 : Int), p.2))
  | _ => (parseUIntNum s).map (fun p => ((p.1 : Int), p.2))

/-- Python dict item assignment `d[k] = v`: replace in place or append. -/
def objInsert (fields : List (String × Json)) (k : String) (v : Json) :
    List (String × Json) :=
  match fields with
  | [] => [(k, v)]
  | (k', v') :: rest =>
    if k' = k then (k', v) :: rest else (k', v') :: objInsert rest k v

/-- Parser work items: a value, the continuation of an array after its first
element, or the continuation of an object (with the members accumulated so
far, Python-dict style). -/
inductive PMode where
  | val
  | arrTail (acc : List Json)
  | objTail (acc : List (String × Json))

/-- The recursive JSON parser (model of `json.loads`).  `fuel` only bounds
the recursion depth; `jsonParseL` passes more than any input can consume. -/
def parseCore : Nat → PMode → List Char → Option (Json × List Char)
  | 0, _, _ => none
  | fuel + 1, .val, s =>
    match skipWs s with
    | [] => none
    | c :: rest =>
      if c = '"' then
        (parseStringBody rest).map (fun p => (Json.str ⟨p.1⟩, p.2))
      else if c = '\x7b' then
        match skipWs rest with
        | '\x7d' :: rest2 => some (.obj [], rest2)
        | rest2 => parseCore fuel (.objTail []) rest2
      else if c = '[' then
        match skipWs rest with
        | ']' :: rest2 => some (.arr [], rest2)
        | rest2 => parseCore fuel (.arrTail []) rest2
      else if c = 't' then
        if isPrefixL ['r', 'u', 'e'] rest then some (.bool true, rest.drop 3)
        else none
      else if c = 'f' then
        if isPrefixL ['a', 'l', 's', 'e'] rest then some (.bool false, rest.drop 4)
        else none
      else if c = 'n' then
        if isPrefixL ['u', 'l', 'l'] rest then some (.null, rest.drop 3)
        else none
      else
        (parseIntNum (c :: rest)).map (fun p => (Json.num p.1, p.2))
  | fuel + 1, .arrTail acc, s =>
    match parseCore fuel .val s with
    | none => none
    | some (v, rest) =>
      match skipWs rest with
      | ',' :: rest2 => parseCore fuel (.arrTail (acc ++ [v])) rest2
      | ']' :: rest2 => some (.arr (acc ++ [v]), rest2)
      | _ => none
  | fuel + 1, .objTail acc, s =>
    match skipWs s with
    | '"' :: rest =>
      match parseStringBody rest with
      | none => none
      | some (kchars, rest2) =>
        match skipWs rest2 with
        | ':' :: rest3 =>
          match parseCore fuel .val rest3 with
          | none => none
          | some (v, rest4) =>
            match skipWs rest4 with
            | ',' :: rest5 =>
              parseCore fuel (.objTail (objInsert acc ⟨kchars⟩ v)) rest5
            | '\x7d' :: rest5 => some (.obj (objInsert acc ⟨kchars⟩ v), rest5)
            | _ => none
        | _ => none
    | _ => none

/-- `json.loads(s)` (model): parse one JSON value and require only
whitespace to follow.  The fuel `2·|s| + 2` dominates every parse: at least
one character is consumed across any two consecutive recursion steps. -/
def jsonParseL (s : List Char) : Option Json :=
  match parseCore (2 * s.length + 2) .val s with
  | some (v, rest) => if skipWs rest = [] then some v else none
  | none => none

/-- `json.loads` on a string. -/
def jsonParse (s : String) : Option Json := jsonParseL s.data

/- ================== Response parser ================== -/

/-- The fence-stripping step of `parse_business_card_response`: strip the
input, then cut out the first ```json fenced block if any, else the first
generic fenced block, else keep the whole text. -/
def extractJsonText (response_text : String) : List Char :=
  let text := pyStripL response_text.data
  if containsL "```json".data text then
    let start := (pyFindFrom text "```json".data 0).toNat + 7
    let stop := pyFindFrom text "```".data start
    pyStripL (pySlice text start stop)
  else if containsL "```".data text then
    let start := (pyFindFrom text "```".data 0).toNat + 3
    let stop := pyFindFrom text "```".data start
    pyStripL (pySlice text start stop)
  else text

/-- One iteration of the default-filling loop:
`if key not in data: data[key] = default_data[key]`. -/
def fillStep (d : List (String × Json)) (kd : String × Json) :
    List (String × Json) :=
  if (lookupKey d kd.1).isSome then d else d ++ [kd]

/-- The default-filling loop of `parse_business_card_response`:
`for key in default_data: if key not in data: data[key] = default`. -/
def mergeDefaults (fields : List (String × Json)) : List (String × Json) :=
  default_data.foldl fillStep fields

/-- `parse_business_card_response(response_text)` from
`src/utils/vcard_generator.py`.  Only `json.JSONDecodeError` is caught by
the source, yielding the default record; when `json.loads` returns a
non-dict the default-filling loop's `in` / item assignment raises an
uncaught `TypeError` unless every schema key happens to be contained in the
value (substring containment for strings, element membership for lists), in
which case the value is returned unchanged. -/
def parse_business_card_response (response_text : String) : Except String Json :=
  match jsonParseL (extractJsonText response_text) with
  | none => .ok (.obj default_data)
  | some data =>
    match data with
    | .obj fields => .ok (.obj (mergeDefaults fields))
    | .str s =>
      if default_data.all (fun kd => strContains s kd.1) then .ok (.str s)
      else .error "TypeError"
    | .arr xs =>
      if default_data.all (fun kd => xs.contains (Json.str kd.1)) then
        .ok (.arr xs)
      else .error "TypeError"
    | _ => .error "TypeError"

theorem lookupKey_append_some (fields extra : List (String × Json))
    (k : String) (v : Json) (h : lookupKey fields k = some v) :
    lookupKey (fields ++ extra) k = some v := by
  induction fields with
  | nil => simp [lookupKey] at h
  | cons kv rest ih =>
    rcases kv with ⟨k', v'⟩
    by_cases hk : k' = k
    · simp [lookupKey, hk] at h ⊢
      exact h
    · simp [lookupKey, hk] at h ⊢
      exact ih h

theorem lookupKey_append_none (fields extra : List (String × Json))
    (k : String) (h : lookupKey fields k = none) :
    lookupKey (fields ++ extra) k = lookupKey extra k := by
  induction fields with
  | nil => simp [lookupKey]
  | cons kv rest ih =>
    rcases kv with ⟨k', v'⟩
    by_cases hk : k' = k
    · simp [lookupKey, hk] at h
    · simp [lookupKey, hk] at h ⊢
      exact ih h

theorem fillStep_preserves_some (d : List (String × Json)) (kd : String × Json)
    (k : String) (v : Json) (h : lookupKey d k = some v) :
    lookupKey (fillStep d kd) k = some v := by
  unfold fillStep
  split
  · exact h
  · exact lookupKey_append_some d [kd] k v h

theorem foldl_fillStep_preserves_some (ds : List (String × Json))
    (fields : List (String × Json)) (k : String) (v : Json)
    (h : lookupKey fields k = some v) :
    lookupKey (ds.foldl fillStep fields) k = some v := by
  induction ds generalizing fields with
  | nil => simpa using h
  | cons kd rest ih =>
    simp only [List.foldl_cons]
    exact ih (fillStep fields kd) (fillStep_preserves_some fields kd k v h)

theorem foldl_fillStep_fills_absent (ds : List (String × Json))
    (fields : List (String × Json)) (k : String) (d : Json)
    (hnd : (ds.map Prod.fst).Nodup) (hmem : (k, d) ∈ ds)
    (h : lookupKey fields k = none) :
    lookupKey (ds.foldl fillStep fields) k = some d := by
  induction ds generalizing fields with
  | nil => simp at hmem
  | cons kd rest ih =>
    simp only [List.foldl_cons]
    rcases List.mem_cons.1 hmem with heq | hrest
    · subst heq
      have hfill : fillStep fields (k, d) = fields ++ [(k, d)] := by
        simp [fillStep, h]
      rw [hfill]
      have hlk : lookupKey (fields ++ [(k, d)]) k = some d := by
        rw [lookupKey_append_none fields [(k, d)] k h]
        simp [lookupKey]
      exact foldl_fillStep_preserves_some rest _ k d hlk
    · have hk : kd.1 ≠ k := by
        intro hc
        have : k ∈ rest.map Prod.fst :=
          List.mem_map.2 ⟨(k, d), hrest, rfl⟩
        rw [List.map_cons, List.nodup_cons] at hnd
        exact hnd.1 (hc ▸ this)
      have hnone : lookupKey (fillStep fields kd) k = none := by
        unfold fillStep
        split
        · exact h
        · rw [lookupKey_append_none fields [kd] k h]
          rcases kd with ⟨k1, v1⟩
          simp only at hk
          simp [lookupKey, hk]
      exact ih (fillStep fields kd)
        (by rw [List.map_cons, List.nodup_cons] at hnd; exact hnd.2)
        hrest hnone

/-- C2 counterexample: `"123"` is valid JSON but not an object, so the
default-filling loop raises `TypeError` (`in` applied to an int), which the
source does not catch — the parser does raise on this input string. -/
theorem parse_response_raises_on_integer_input :
    parse_business_card_response "123" = Except.error "TypeError" := rfl

/-- C2 (amended): whenever the extracted text fails to parse as JSON, the
parser returns the record with every field at its default without raising,
and the record validator reports that all-default record as unusable.  (The
claim's unrestricted "for every input string the parser never raises"
reading fails on valid-JSON non-object input: see the counterexample.) -/
theorem parse_response_fail_soft (s : String)
    (h : jsonParseL (extractJsonText s) = none) :
    parse_business_card_response s = Except.ok (Json.obj default_data) ∧
    validate_business_card_data default_data = false := by
  refine ⟨?_, by decide⟩
  unfold parse_business_card_response
  rw [h]

/-- Witness for C2 on the spec's example of a prose reply. -/
theorem parse_response_fail_soft_witness :
    parse_business_card_response "I cannot read this image"
        = Except.ok (Json.obj default_data) ∧
    validate_business_card_data default_data = false :=
  parse_response_fail_soft "I cannot read this image" rfl

/-- C7: when the extracted text parses as a JSON object, the parser returns
that object with every schema field absent from it bound to the schema
default, and every present field untouched. -/
theorem parse_response_fills_defaults (s : String)
    (fields : List (String × Json))
    (h : jsonParseL (extractJsonText s) = some (Json.obj fields)) :
    parse_business_card_response s = Except.ok (Json.obj (mergeDefaults fields)) ∧
    (∀ k d, (k, d) ∈ default_data → lookupKey fields k = none →
      lookupKey (mergeDefaults fields) k = some d) ∧
    (∀ k v, lookupKey fields k = some v →
      lookupKey (mergeDefaults fields) k = some v) := by
  refine ⟨?_, ?_, ?_⟩
  · unfold parse_business_card_response
    rw [h]
  · intro k d hmem hnone
    exact foldl_fillStep_fills_absent default_data fields k d (by decide) hmem hnone
  · intro k v hsome
    exact foldl_fillStep_preserves_some default_data fields k v hsome

/-- Witness for C7 on the spec's example object: the two present fields are
kept and a missing scalar field and a missing multi-valued field are filled
with their defaults. -/
theorem parse_response_fills_defaults_witness :
    parse_business_card_response
        "\x7b\"name\": \"Taro Yamada\", \"email\": [\"a@b.com\"]\x7d"
      = Except.ok (Json.obj (mergeDefaults
          [("name", Json.str "Taro Yamada"),
           ("email", Json.arr [Json.str "a@b.com"])])) ∧
    lookupKey (mergeDefaults
        [("name", Json.str "Taro Yamada"),
         ("email", Json.arr [Json.str "a@b.com"])]) "company" = some Json.null ∧
    lookupKey (mergeDefaults
        [("name", Json.str "Taro Yamada"),
         ("email", Json.arr [Json.str "a@b.com"])]) "phone"
      = some (Json.arr []) ∧
    lookupKey (mergeDefaults
        [("name", Json.str "Taro Yamada"),
         ("email", Json.arr [Json.str "a@b.com"])]) "name"
      = some (Json.str "Taro Yamada") := by
  have h := parse_response_fills_defaults
    "\x7b\"name\": \"Taro Yamada\", \"email\": [\"a@b.com\"]\x7d"
    [("name", Json.str "Taro Yamada"), ("email", Json.arr [Json.str "a@b.com"])]
    rfl
  refine ⟨h.1, ?_, ?_, ?_⟩
  · exact h.2.1 "company" Json.null (by simp [default_data]) rfl
  · exact h.2.1 "phone" (Json.arr []) (by simp [default_data]) rfl
  · exact h.2.2 "name" (Json.str "Taro Yamada") rfl

/- ================== Fence extraction (C6) ================== -/

theorem findSub_of_prefix (p l : List Char) (h : isPrefixL p l = true) :
    findSub p l = some 0 := by
  cases l <;> simp [findSub, h]

theorem containsL_of_drop_prefix (p l : List Char) (i : Nat)
    (h : isPrefixL p (l.drop i) = true) : containsL p l = true := by
  rcases (isPrefixL_iff p (l.drop i)).1 h with ⟨r, hr⟩
  refine (containsL_iff p l).2 ⟨l.take i, r, ?_⟩
  conv_lhs => rw [← List.take_append_drop i l]
  rw [hr, List.append_assoc]

theorem containsL_pattern_prefix (p q l : List Char)
    (h : containsL (p ++ q) l = true) : containsL p l = true := by
  rcases (containsL_iff (p ++ q) l).1 h with ⟨u, v, rfl⟩
  exact (containsL_iff p _).2 ⟨u, q ++ v, by simp⟩

theorem isPrefixL_of_append_left (p a b : List Char)
    (h : isPrefixL p (a ++ b) = true) (hlen : p.length ≤ a.length) :
    isPrefixL p a = true := by
  rcases (isPrefixL_iff p (a ++ b)).1 h with ⟨r, hr⟩
  rw [isPrefixL_iff]
  refine ⟨a.drop p.length, ?_⟩
  have htake : (a ++ b).take p.length = a.take p.length :=
    List.take_append_of_le_length hlen
  rw [hr, List.take_append_of_le_length (le_refl p.length),
    List.take_length] at htake
  conv_lhs => rw [← List.take_append_drop p.length a]
  rw [← htake]

theorem pyStripL_cons_ws (c : Char) (l : List Char) (h : isPyWS c = true) :
    pyStripL (c :: l) = pyStripL l := by
  simp [pyStripL, List.dropWhile_cons, h]

theorem pyStripL_append_ws (l : List Char) (c : Char) (h : isPyWS c = true) :
    pyStripL (l ++ [c]) = pyStripL l := by
  unfold pyStripL
  rw [List.dropWhile_append]
  split
  · rename_i hEmpty
    simp only [List.dropWhile_cons, h, List.isEmpty_iff] at hEmpty ⊢
    rw [hEmpty]
    simp [List.dropWhile, h, dropEndWhile]
  · unfold dropEndWhile
    rw [List.reverse_append]
    simp [List.dropWhile_cons, h]

theorem pyStripL_of_ends (a b : Char) (m : List Char)
    (ha : isPyWS a = false) (hb : isPyWS b = false) :
    pyStripL (a :: (m ++ [b])) = a :: (m ++ [b]) := by
  have h1 : List.dropWhile isPyWS (a :: (m ++ [b])) = a :: (m ++ [b]) := by
    rw [List.dropWhile_cons, ha]
    simp
  have h2 : (a :: (m ++ [b]) : List Char).reverse
      = b :: (m.reverse ++ [a]) := by
    simp
  have h3 : List.dropWhile isPyWS (b :: (m.reverse ++ [a]))
      = b :: (m.reverse ++ [a]) := by
    rw [List.dropWhile_cons, hb]
    simp
  unfold pyStripL dropEndWhile
  rw [h1, h2, h3, ← h2, List.reverse_reverse]

theorem findSub_append_first (p u w : List Char)
    (hno : ∀ i, i < u.length → isPrefixL p ((u ++ w).drop i) = false)
    (hw : isPrefixL p w = true) :
    findSub p (u ++ w) = some u.length := by
  induction u with
  | nil => simpa using findSub_of_prefix p w hw
  | cons a u' ih =>
    have h0 : isPrefixL p (a :: (u' ++ w)) = false := by
      have := hno 0 (by simp)
      simpa using this
    have hrest : findSub p (u' ++ w) = some u'.length := by
      refine ih (fun i hi => ?_)
      have := hno (i + 1) (by simpa using Nat.succ_lt_succ hi)
      simpa using this
    simp [findSub, h0, hrest]

/-- No occurrence of ``` in `'\n' :: t ++ ['\n']` when `t` has none. -/
theorem no_tick3_sep (t : List Char)
    (h : containsL ['`', '`', '`'] t = false) :
    containsL ['`', '`', '`'] ('\n' :: t ++ ['\n']) = false := by
  by_contra hc
  simp only [Bool.not_eq_false] at hc
  rcases (containsL_iff _ _).1 hc with ⟨a, b, hab⟩
  cases a with
  | nil =>
    simp only [List.nil_append, List.cons_append, List.cons.injEq] at hab
    exact absurd hab.1 (by decide)
  | cons c a' =>
    simp only [List.cons_append, List.cons.injEq] at hab
    rcases hab with ⟨-, hab⟩
    rcases List.eq_nil_or_concat b with rfl | ⟨b', y, rfl⟩
    · rw [List.append_nil] at hab
      have hab' : t ++ ['\n']
          = (a' ++ ['`', '`']) ++ ['`'] := by
        rw [hab]
        simp
      rcases List.append_inj' hab' rfl with ⟨-, h2⟩
      exact absurd (List.cons.inj h2).1 (by decide)
    · have hab' : t ++ ['\n'] = (a' ++ ['`', '`', '`'] ++ b') ++ [y] := by
        rw [hab]
        simp
      rcases List.append_inj' hab' rfl with ⟨h1, -⟩
      have : containsL ['`', '`', '`'] t = true :=
        (containsL_iff _ _).2 ⟨a', b', h1⟩
      rw [this] at h
      exact absurd h (by simp)


/-- Before the final fence of `('\n' :: (t ++ ['\n'])) ++ bt3` there is no
``` occurrence when `t` has none. -/
theorem no_prefix_before_fence (t : List Char)
    (h : containsL ['`', '`', '`'] t = false) :
    ∀ i, i < ('\n' :: (t ++ ['\n'])).length →
      isPrefixL ['`', '`', '`']
        ((('\n' :: (t ++ ['\n'])) ++ ['`', '`', '`']).drop i) = false := by
  intro i hi
  by_contra hc
  simp only [Bool.not_eq_false] at hc
  rw [List.drop_append_of_le_length (by omega)] at hc
  by_cases hlen : 3 ≤ (('\n' :: (t ++ ['\n'])).drop i).length
  · have hp : isPrefixL ['`', '`', '`']
        (('\n' :: (t ++ ['\n'])).drop i) = true :=
      isPrefixL_of_append_left _ _ _ hc
        (by simp only [List.length_cons, List.length_nil]; omega)
    have hcon : containsL ['`', '`', '`'] ('\n' :: (t ++ ['\n'])) = true :=
      containsL_of_drop_prefix _ _ i hp
    have hfalse := no_tick3_sep t h
    simp only [List.cons_append] at hfalse
    rw [hcon] at hfalse
    exact absurd hfalse (by simp)
  · rcases (isPrefixL_iff _ _).1 hc with ⟨r, hr⟩
    have htake1 : ((('\n' :: (t ++ ['\n'])).drop i) ++ ['`', '`', '`']).take
        (('\n' :: (t ++ ['\n'])).drop i).length
        = ('\n' :: (t ++ ['\n'])).drop i := List.take_left _ _
    have htake2 : ((['`', '`', '`'] : List Char) ++ r).take
          (('\n' :: (t ++ ['\n'])).drop i).length
        = (['`', '`', '`'] : List Char).take
            (('\n' :: (t ++ ['\n'])).drop i).length :=
      List.take_append_of_le_length
        (by simp only [List.length_cons, List.length_nil]; omega)
    rw [hr, htake2] at htake1
    have hmem : '\n' ∈ ('\n' :: (t ++ ['\n'])).drop i := by
      have hsh : ('\n' :: (t ++ ['\n'])) = ('\n' :: t) ++ ['\n'] := by simp
      rw [hsh, List.drop_append_of_le_length (by
        simp only [List.length_cons, List.length_append,
          List.length_singleton, List.length_nil] at hi ⊢
        omega)]
      exact List.mem_append.2 (Or.inr (List.mem_singleton.2 rfl))
    rw [← htake1] at hmem
    have hbt : '\n' ∈ (['`', '`', '`'] : List Char) :=
      List.mem_of_mem_take hmem
    simp at hbt

/-- Computation of the fence extraction on a ```json wrapped input with
fence-free inner text. -/
theorem extractJsonText_fenced (t : String)
    (h : strContains t "```" = false) :
    extractJsonText ("```json\n" ++ t ++ "\n```") = pyStripL t.data := by
  have hW : ("```json\n" ++ t ++ "\n```").data
      = '`' :: ((("``json\n".data ++ t.data ++ "\n``".data)) ++ ['`']) := by
    simp [String.data_append]
  have hstrip : pyStripL ("```json\n" ++ t ++ "\n```").data
      = ("```json\n" ++ t ++ "\n```").data := by
    rw [hW]
    exact pyStripL_of_ends '`' '`' _ (by decide) (by decide)
  have hsplit : ("```json\n" ++ t ++ "\n```").data
      = "```json".data ++ (('\n' :: (t.data ++ ['\n'])) ++ ['`', '`', '`']) := by
    simp [String.data_append]
  have hc7 : containsL "```json".data
      ("```json\n" ++ t ++ "\n```").data = true := by
    rw [hsplit]
    simpa using containsL_mid "```json".data [] _
  have hfind7 : pyFindFrom ("```json\n" ++ t ++ "\n```").data "```json".data 0
      = 0 := by
    unfold pyFindFrom
    rw [List.drop_zero, hsplit,
      findSub_of_prefix _ _ (isPrefixL_self_append _ _)]
    rfl
  have hfind3 : pyFindFrom ("```json\n" ++ t ++ "\n```").data "```".data 7
      = ((t.data.length + 9 : Nat) : Int) := by
    unfold pyFindFrom
    have hdrop : ("```json\n" ++ t ++ "\n```").data.drop 7
        = ('\n' :: (t.data ++ ['\n'])) ++ ['`', '`', '`'] := by
      rw [hsplit, show (7 : Nat) = ("```json".data).length from rfl]
      exact List.drop_left _ _
    rw [hdrop, findSub_append_first _ _ _
      (no_prefix_before_fence t.data h)
      (by simpa using isPrefixL_self_append ['`', '`', '`'] [])]
    have hul : ('\n' :: (t.data ++ ['\n'])).length = t.data.length + 2 := by
      simp
    rw [hul]
    show ((7 + (t.data.length + 2) : Nat) : Int) = ((t.data.length + 9 : Nat) : Int)
    omega
  have hlen : ("```json\n" ++ t ++ "\n```").data.length
      = t.data.length + 12 := by
    rw [hsplit]
    simp
  have hslice : pySlice ("```json\n" ++ t ++ "\n```").data 7
      ((t.data.length + 9 : Nat) : Int) = '\n' :: (t.data ++ ['\n']) := by
    simp only [pySlice]
    rw [hlen]
    rw [if_neg (by omega : ¬ ((t.data.length + 9 : Nat) : Int) < 0)]
    have hmin : (min ((t.data.length + 9 : Nat) : Int)
        ((t.data.length + 12 : Nat) : Int)).toNat = t.data.length + 9 := by
      rw [min_def]
      split <;> omega
    rw [hmin]
    rw [hsplit, show t.data.length + 9
        = ("```json".data).length + (t.data.length + 2) from by
          simp
          omega,
      List.take_append]
    rw [show (('\n' :: (t.data ++ ['\n'])) ++ ['`', '`', '`']).take
          (t.data.length + 2)
        = ('\n' :: (t.data ++ ['\n'])) from by
      rw [show t.data.length + 2 = ('\n' :: (t.data ++ ['\n'])).length from by
        simp]
      exact List.take_left _ _]
    rw [show (7 : Nat) = ("```json".data).length from rfl]
    exact List.drop_left _ _
  have hstripu : pyStripL ('\n' :: (t.data ++ ['\n'])) = pyStripL t.data := by
    rw [pyStripL_cons_ws '\n' _ (by decide),
      pyStripL_append_ws _ '\n' (by decide)]
  simp only [extractJsonText]
  rw [hstrip, if_pos hc7, hfind7,
    show ((0 : Int).toNat + 7) = 7 from rfl, hfind3, hslice, hstripu]

/-- The extraction is the identity (up to strip) on fence-free input. -/
theorem extractJsonText_plain (t : String)
    (h : strContains t "```" = false) :
    extractJsonText t = pyStripL t.data := by
  have h3 : containsL "```".data (pyStripL t.data) = false := by
    by_contra hc
    simp only [Bool.not_eq_false] at hc
    rcases pyStripL_sandwich t.data with ⟨a, b, hab⟩
    have hcon : containsL "```".data t.data = true := by
      conv_lhs => rw [hab]
      exact containsL_of_sandwich _ _ _ _ hc
    unfold strContains at h
    rw [hcon] at h
    exact absurd h (by simp)
  have h7 : containsL "```json".data (pyStripL t.data) = false := by
    by_contra hc
    simp only [Bool.not_eq_false] at hc
    have hcc : containsL "```".data (pyStripL t.data) = true := by
      refine containsL_pattern_prefix "```".data "json".data _ ?_
      have hdecomp : ("```json".data : List Char)
          = "```".data ++ "json".data := rfl
      rw [← hdecomp]
      exact hc
    rw [hcc] at h3
    exact absurd h3 (by simp)
  simp only [extractJsonText]
  rw [if_neg (by simp [h7]), if_neg (by simp [h3])]

/-- C6: a ```json fenced wrapping parses to exactly the same record as the
unwrapped JSON text: the extraction takes the substring between the first
```json fence-open marker and the next ``` fence-close marker and strips it,
so for fence-free inner text both paths hand the same text to `json.loads`. -/
theorem parse_response_fence_unwrap (t : String)
    (h : strContains t "```" = false) :
    parse_business_card_response ("```json\n" ++ t ++ "\n```")
      = parse_business_card_response t := by
  unfold parse_business_card_response
  rw [extractJsonText_fenced t h, extractJsonText_plain t h]

/-- Witness for C6 at the spec's example input. -/
theorem parse_response_fence_unwrap_witness :
    strContains "\x7b\"name\":\"X\"\x7d" "```" = false ∧
    parse_business_card_response "```json\n\x7b\"name\":\"X\"\x7d\n```"
      = parse_business_card_response "\x7b\"name\":\"X\"\x7d" :=
  ⟨rfl, parse_response_fence_unwrap "\x7b\"name\":\"X\"\x7d" rfl⟩

/- ================== Decimal rendering and Python str() ================== -/

/-- The decimal digit character for `n < 10`. -/
def digitOf : Nat → Char
  | 0 => '0' | 1 => '1' | 2 => '2' | 3 => '3' | 4 => '4'
  | 5 => '5' | 6 => '6' | 7 => '7' | 8 => '8' | _ => '9'

/-- Decimal digits of `n`, most significant first (`fuel ≥ n` suffices). -/
def natToCharsAux : Nat → Nat → List Char
  | 0, n => [digitOf (n % 10)]
  | fuel + 1, n =>
    if n < 10 then [digitOf n]
    else natToCharsAux fuel (n / 10) ++ [digitOf (n % 10)]

/-- Decimal rendering of a natural number. -/
def natToChars (n : Nat) : List Char := natToCharsAux n n

/-- Python `str()` of an integer. -/
def intToChars (i : Int) : List Char :=
  if i < 0 then '-' :: natToChars (-i).toNat else natToChars i.toNat

mutual
/-- Python `repr()` of the modelled values (quote escaping inside nested
reprs is not modelled; no claim involves container values in f-strings). -/
def pyRepr : Json → String
  | .null => "None"
  | .bool b => if b then "True" else "False"
  | .num n => ⟨intToChars n⟩
  | .str s => "'" ++ s ++ "'"
  | .arr xs => "[" ++ pyReprList xs ++ "]"
  | .obj fs => "\x7b" ++ pyReprFields fs ++ "\x7d"

def pyReprList : List Json → String
  | [] => ""
  | [x] => pyRepr x
  | x :: xs => pyRepr x ++ ", " ++ pyReprList xs

def pyReprFields : List (String × Json) → String
  | [] => ""
  | [kv] => "'" ++ kv.1 ++ "': " ++ pyRepr kv.2
  | kv :: fs => "'" ++ kv.1 ++ "': " ++ pyRepr kv.2 ++ ", " ++ pyReprFields fs
end

/-- Python `str()` of a value interpolated into an f-string. -/
def pyStr : Json → String
  | .str s => s
  | .null => "None"
  | .bool b => if b then "True" else "False"
  | .num n => ⟨intToChars n⟩
  | .arr xs => pyRepr (.arr xs)
  | .obj fs => pyRepr (.obj fs)

/-- Python `sep.join(parts)`. -/
def joinSep (sep : String) : List String → String
  | [] => ""
  | x :: xs => xs.foldl (fun a b => a ++ sep ++ b) x

/-- Python `str.split()` with no separator: split on whitespace runs,
dropping empty words (`acc` holds the current word reversed). -/
def pyWordsAux : List Char → List Char → List String
  | [], acc => if acc.isEmpty then [] else [⟨acc.reverse⟩]
  | c :: rest, acc =>
    if isPyWS c then
      if acc.isEmpty then pyWordsAux rest []
      else (⟨acc.reverse⟩ : String) :: pyWordsAux rest []
    else pyWordsAux rest (c :: acc)

/-- Python `s.split()`. -/
def pySplit (s : String) : List String := pyWordsAux s.data []

/- ================== vCard encoder ================== -/

/-- The name lines of `generate_vcard` (N + FN); `split()` on a truthy
non-string raises `AttributeError`. -/
def nameSegment (data : List (String × Json)) : Except String (List String) :=
  let nameV := pyGetD data "name" (.str "")
  if jsonTruthy nameV then
    match nameV with
    | .str name =>
      let name_parts := pySplit name
      if name_parts.length ≥ 2 then
        .ok ["N:" ++ name_parts.headD "" ++ ";"
              ++ joinSep " " (name_parts.drop 1) ++ ";;;",
             "FN:" ++ name]
      else .ok ["N:" ++ name ++ ";;;;", "FN:" ++ name]
    | _ => .error "AttributeError"
  else .ok []

/-- The ORG line of `generate_vcard`; `";".join` on non-string members
raises `TypeError`. -/
def orgSegment (data : List (String × Json)) : Except String (List String) :=
  let companyV := pyGetD data "company" (.str "")
  let departmentV := pyGetD data "department" (.str "")
  if jsonTruthy companyV || jsonTruthy departmentV then
    if jsonTruthy departmentV then
      match companyV, departmentV with
      | .str company, .str department =>
        .ok ["ORG:" ++ joinSep ";" [company, department]]
      | _, _ => .error "TypeError"
    else
      match companyV with
      | .str company => .ok ["ORG:" ++ joinSep ";" [company]]
      | _ => .error "TypeError"
  else .ok []

/-- An optional single line `pre + str(value) + suffix`, emitted only when
the value is truthy (the common shape of the title/mobile/fax/website/
address lines; the f-string cannot raise). -/
def optLine (pre suffix : String) (v : Json) : List String :=
  if jsonTruthy v then [pre ++ pyStr v ++ suffix] else []

/-- The TITLE line of `generate_vcard`. -/
def titleLines (data : List (String × Json)) : List String :=
  optLine "TITLE:" "" (pyGetD data "title" (.str ""))

/-- The iterable the phone/email loops run over: a non-empty string is
wrapped into a singleton, a list iterates its elements, a dict its keys;
iterating any other value raises `TypeError`. -/
def loopElems (v : Json) : Except String (List Json) :=
  match v with
  | .str s => .ok (if s ≠ "" then [Json.str s] else [])
  | .arr xs => .ok xs
  | .obj fs => .ok (fs.map (fun kv => Json.str kv.1))
  | _ => .error "TypeError"

/-- The TEL;TYPE=WORK lines of `generate_vcard`. -/
def phoneSegment (data : List (String × Json)) : Except String (List String) :=
  (loopElems (pyGetD data "phone" (.arr []))).map
    (fun es => (es.filter jsonTruthy).map (fun p => "TEL;TYPE=WORK:" ++ pyStr p))

/-- The TEL;TYPE=CELL line of `generate_vcard`. -/
def mobileLines (data : List (String × Json)) : List String :=
  optLine "TEL;TYPE=CELL:" "" (pyGetD data "mobile" (.str ""))

/-- The TEL;TYPE=FAX line of `generate_vcard`. -/
def faxLines (data : List (String × Json)) : List String :=
  optLine "TEL;TYPE=FAX:" "" (pyGetD data "fax" (.str ""))

/-- The EMAIL lines of `generate_vcard`. -/
def emailSegment (data : List (String × Json)) : Except String (List String) :=
  (loopElems (pyGetD data "email" (.arr []))).map
    (fun es => (es.filter jsonTruthy).map (fun e => "EMAIL:" ++ pyStr e))

/-- The URL line of `generate_vcard`. -/
def websiteLines (data : List (String × Json)) : List String :=
  optLine "URL:" "" (pyGetD data "website" (.str ""))

/-- The ADR line of `generate_vcard` (address in the locality slot, country
hard-coded). -/
def addressLines (data : List (String × Json)) : List String :=
  optLine "ADR;TYPE=WORK:;;" ";;;;日本" (pyGetD data "address" (.str ""))

/-- The `lines` list built by `generate_vcard`, in source order. -/
def vcardLines (data : List (String × Json)) : Except String (List String) := do
  let n ← nameSegment data
  let o ← orgSegment data
  let p ← phoneSegment data
  let e ← emailSegment data
  pure (["BEGIN:VCARD", "VERSION:3.0"] ++ n ++ o ++ titleLines data ++ p
    ++ mobileLines data ++ faxLines data ++ e ++ websiteLines data
    ++ addressLines data ++ ["END:VCARD"])

/-- `generate_vcard(data)` from `src/utils/vcard_generator.py`:
`"\r\n".join(lines)`. -/
def generate_vcard (data : List (String × Json)) : Except String String :=
  (vcardLines data).map (joinSep "\r\n")

/- ================== CSV encoder ================== -/

/-- `fieldnames` from `generate_csv`. -/
def fieldnames : List String :=
  ["name", "name_kana", "company", "department", "title",
   "phone", "mobile", "fax", "email", "website", "address"]

/-- `header_map` from `generate_csv`. -/
def header_map : List (String × String) :=
  [("name", "氏名"), ("name_kana", "氏名（フリガナ）"), ("company", "会社名"),
   ("department", "部署"), ("title", "役職"), ("phone", "電話番号"),
   ("mobile", "携帯電話"), ("fax", "FAX"), ("email", "メール"),
   ("website", "Webサイト"), ("address", "住所")]

/-- One CSV cell: lists are joined with `", "` (dropping falsy elements,
each through `str()`); other truthy values pass through `str()`; falsy
values give the empty cell. -/
def csvCell (v : Json) : String :=
  match v with
  | .arr xs => joinSep ", " ((xs.filter jsonTruthy).map pyStr)
  | v => if jsonTruthy v then pyStr v else ""

/-- `csv.writer` minimal quoting: quote when the cell contains the
delimiter, the quote character or a line-terminator character, doubling
embedded quotes. -/
def csvQuote (s : String) : String :=
  if strContains s "," || strContains s "\"" || strContains s "\r"
      || strContains s "\n" then
    "\"" ++ (⟨s.data.flatMap (fun c => if c = '"' then ['"', '"'] else [c])⟩ : String)
      ++ "\""
  else s

/-- One `writer.writerow` output: comma-joined quoted cells plus CRLF. -/
def csvRow (cells : List String) : String :=
  joinSep "," (cells.map csvQuote) ++ "\r\n"

/-- `generate_csv(data_list)` from `src/utils/vcard_generator.py`. -/
def generate_csv (data_list : List (List (String × Json))) : String :=
  if data_list.isEmpty then ""
  else
    csvRow (fieldnames.map (fun f => pyDictGet header_map f f))
      ++ String.join (data_list.map (fun data =>
          csvRow (fieldnames.map (fun f => csvCell (pyGetD data f (.str ""))))))

/- ================== JSON encoder (json.dumps, indent=2) ================== -/

/-- The lowercase hex digit character for `n < 16`. -/
def hexDigitOf : Nat → Char
  | 0 => '0' | 1 => '1' | 2 => '2' | 3 => '3' | 4 => '4' | 5 => '5'
  | 6 => '6' | 7 => '7' | 8 => '8' | 9 => '9' | 10 => 'a' | 11 => 'b'
  | 12 => 'c' | 13 => 'd' | 14 => 'e' | _ => 'f'

/-- The escape sequence `json.dumps` (with `ensure_ascii=False`) emits for
one character: short escapes for the common controls, `\u00xx` for the
remaining controls, everything else raw. -/
def escSeq (c : Char) : List Char :=
  if c = '"' then ['\\', '"']
  else if c = '\\' then ['\\', '\\']
  else if c = '\n' then ['\\', 'n']
  else if c = '\r' then ['\\', 'r']
  else if c = '\t' then ['\\', 't']
  else if c = '\x08' then ['\\', 'b']
  else if c = '\x0c' then ['\\', 'f']
  else if c.toNat < 32 then
    ['\\', 'u', '0', '0', hexDigitOf (c.toNat / 16), hexDigitOf (c.toNat % 16)]
  else [c]

/-- A dumped JSON string literal. -/
def dumpStrL (l : List Char) : List Char := '"' :: l.flatMap escSeq ++ ['"']

/-- `n` spaces. -/
def spacesC (n : Nat) : List Char := List.replicate n ' '

mutual
/-- `json.dumps(v, ensure_ascii=False, indent=2)` at indentation level
`ind`: containers open with a newline, indent each entry by two more
spaces, separate entries with `",\n"` (`": "` after object keys) and close
on a fresh line at the enclosing indentation. -/
def dumpVal (ind : Nat) : Json → List Char
  | .null => "null".data
  | .bool b => if b then "true".data else "false".data
  | .num n => intToChars n
  | .str s => dumpStrL s.data
  | .arr xs => dumpArr ind xs
  | .obj fs => dumpObj ind fs

def dumpArr (ind : Nat) : List Json → List Char
  | [] => ['[', ']']
  | x :: xs =>
    '[' :: '\n' :: (spacesC (ind + 2) ++ dumpVal (ind + 2) x
      ++ dumpArrTail (ind + 2) xs ++ '\n' :: (spacesC ind ++ [']']))

def dumpObj (ind : Nat) : List (String × Json) → List Char
  | [] => ['\x7b', '\x7d']
  | kv :: fs =>
    '\x7b' :: '\n' :: (spacesC (ind + 2) ++ dumpStrL kv.1.data
      ++ ':' :: ' ' :: dumpVal (ind + 2) kv.2 ++ dumpObjTail (ind + 2) fs
      ++ '\n' :: (spacesC ind ++ ['\x7d']))

def dumpArrTail (ind : Nat) : List Json → List Char
  | [] => []
  | x :: xs => ',' :: '\n' :: (spacesC ind ++ dumpVal ind x ++ dumpArrTail ind xs)

def dumpObjTail (ind : Nat) : List (String × Json) → List Char
  | [] => []
  | kv :: fs => ',' :: '\n' :: (spacesC ind ++ dumpStrL kv.1.data
      ++ ':' :: ' ' :: dumpVal ind kv.2 ++ dumpObjTail ind fs)
end

/-- `generate_json(data)` from `src/utils/vcard_generator.py`:
`json.dumps(data, ensure_ascii=False, indent=2)` (the caller uses the
default indent width 2). -/
def generate_json (data : Json) : String := ⟨dumpVal 0 data⟩

/- ================== vCard facts (C8) ================== -/

/-- Number of occurrences of `pat` in a character list. -/
def countOccL (pat : List Char) : List Char → Nat
  | [] => 0
  | s@(_ :: rest) => (if isPrefixL pat s then 1 else 0) + countOccL pat rest

/-- No line of `ls` starts with `tag`. -/
def noLine (ls : List String) (tag : String) : Prop :=
  ∀ l ∈ ls, isPrefixL tag.data l.data = false

theorem mem_optLine (pre suffix : String) (v : Json) (l : String)
    (h : l ∈ optLine pre suffix v) : l = pre ++ (pyStr v ++ suffix) := by
  unfold optLine at h
  split at h
  · rcases List.mem_singleton.1 h with rfl
    rw [String.append_assoc]
  · simp at h

theorem optLine_absent (pre suffix : String) :
    optLine pre suffix (Json.str "") = [] := rfl

theorem nameSegment_shape (data : List (String × Json)) (n : List String)
    (h : nameSegment data = .ok n) :
    n = [] ∨ ∃ x y, n = ["N:" ++ x, "FN:" ++ y] := by
  simp only [nameSegment] at h
  split at h
  · split at h
    · split at h
      · simp only [Except.ok.injEq] at h
        subst h
        exact Or.inr ⟨_, _, rfl⟩
      · simp only [Except.ok.injEq] at h
        subst h
        exact Or.inr ⟨_, _, rfl⟩
    · exact absurd h (by simp)
  · simp only [Except.ok.injEq] at h
    subst h
    exact Or.inl rfl

theorem orgSegment_shape (data : List (String × Json)) (o : List String)
    (h : orgSegment data = .ok o) :
    o = [] ∨ ∃ x, o = ["ORG:" ++ x] := by
  simp only [orgSegment] at h
  split at h
  · split at h
    · split at h
      · simp only [Except.ok.injEq] at h
        subst h
        exact Or.inr ⟨_, rfl⟩
      · exact absurd h (by simp)
    · split at h
      · simp only [Except.ok.injEq] at h
        subst h
        exact Or.inr ⟨_, rfl⟩
      · exact absurd h (by simp)
  · simp only [Except.ok.injEq] at h
    subst h
    exact Or.inl rfl

theorem phoneSegment_shape (data : List (String × Json)) (p : List String)
    (h : phoneSegment data = .ok p) :
    ∀ l ∈ p, ∃ v, l = "TEL;TYPE=WORK:" ++ v := by
  unfold phoneSegment at h
  cases hle : loopElems (pyGetD data "phone" (.arr [])) with
  | error e => rw [hle] at h; exact absurd h (by simp [Except.map])
  | ok es =>
    rw [hle] at h
    simp only [Except.map, Except.ok.injEq] at h
    subst h
    intro l hl
    rcases List.mem_map.1 hl with ⟨x, -, rfl⟩
    exact ⟨pyStr x, rfl⟩

theorem emailSegment_shape (data : List (String × Json)) (p : List String)
    (h : emailSegment data = .ok p) :
    ∀ l ∈ p, ∃ v, l = "EMAIL:" ++ v := by
  unfold emailSegment at h
  cases hle : loopElems (pyGetD data "email" (.arr [])) with
  | error e => rw [hle] at h; exact absurd h (by simp [Except.map])
  | ok es =>
    rw [hle] at h
    simp only [Except.map, Except.ok.injEq] at h
    subst h
    intro l hl
    rcases List.mem_map.1 hl with ⟨x, -, rfl⟩
    exact ⟨pyStr x, rfl⟩

theorem vcard_mem_cases (data : List (String × Json)) (ls : List String)
    (hok : vcardLines data = .ok ls) (l : String) (hl : l ∈ ls) :
    l = "BEGIN:VCARD" ∨ l = "VERSION:3.0" ∨ l = "END:VCARD" ∨
    (∃ n, nameSegment data = .ok n ∧ l ∈ n) ∨
    (∃ o, orgSegment data = .ok o ∧ l ∈ o) ∨
    l ∈ titleLines data ∨
    (∃ p, phoneSegment data = .ok p ∧ l ∈ p) ∨
    l ∈ mobileLines data ∨ l ∈ faxLines data ∨
    (∃ e, emailSegment data = .ok e ∧ l ∈ e) ∨
    l ∈ websiteLines data ∨ l ∈ addressLines data := by
  unfold vcardLines at hok
  cases hn : nameSegment data with
  | error e => rw [hn] at hok; exact absurd hok (by simp [Bind.bind, Except.bind])
  | ok n =>
  rw [hn] at hok
  cases ho : orgSegment data with
  | error e => rw [ho] at hok; exact absurd hok (by simp [Bind.bind, Except.bind])
  | ok o =>
  rw [ho] at hok
  cases hp : phoneSegment data with
  | error e => rw [hp] at hok; exact absurd hok (by simp [Bind.bind, Except.bind])
  | ok p =>
  rw [hp] at hok
  cases he : emailSegment data with
  | error e => rw [he] at hok; exact absurd hok (by simp [Bind.bind, Except.bind])
  | ok em =>
  rw [he] at hok
  simp only [Bind.bind, Except.bind, pure, Except.pure, Except.ok.injEq] at hok
  subst hok
  have hstep : ∀ (a b : List String), l ∈ a ++ b → l ∈ a ∨ l ∈ b :=
    fun a b hab => List.mem_append.1 hab
  rcases hstep _ _ hl with hl | hEND
  · rcases hstep _ _ hl with hl | hAD
    · rcases hstep _ _ hl with hl | hW
      · rcases hstep _ _ hl with hl | hE
        · rcases hstep _ _ hl with hl | hF
          · rcases hstep _ _ hl with hl | hM
            · rcases hstep _ _ hl with hl | hP
              · rcases hstep _ _ hl with hl | hT
                · rcases hstep _ _ hl with hl | hO
                  · rcases hstep _ _ hl with hl | hN
                    · rcases List.mem_cons.1 hl with rfl | hl
                      · exact Or.inl rfl
                      · rcases List.mem_singleton.1 hl with rfl
                        exact Or.inr (Or.inl rfl)
                    · exact Or.inr (Or.inr (Or.inr (Or.inl ⟨n, rfl, hN⟩)))
                  · exact Or.inr (Or.inr (Or.inr (Or.inr (Or.inl ⟨o, rfl, hO⟩))))
                · exact Or.inr (Or.inr (Or.inr (Or.inr (Or.inr (Or.inl hT)))))
              · exact Or.inr (Or.inr (Or.inr (Or.inr (Or.inr (Or.inr
                  (Or.inl ⟨p, rfl, hP⟩))))))
            · exact Or.inr (Or.inr (Or.inr (Or.inr (Or.inr (Or.inr (Or.inr
                (Or.inl hM)))))))
          · exact Or.inr (Or.inr (Or.inr (Or.inr (Or.inr (Or.inr (Or.inr
              (Or.inr (Or.inl hF))))))))
        · exact Or.inr (Or.inr (Or.inr (Or.inr (Or.inr (Or.inr (Or.inr
            (Or.inr (Or.inr (Or.inl ⟨em, rfl, hE⟩)))))))))
      · exact Or.inr (Or.inr (Or.inr (Or.inr (Or.inr (Or.inr (Or.inr
          (Or.inr (Or.inr (Or.inr (Or.inl hW))))))))))
    · exact Or.inr (Or.inr (Or.inr (Or.inr (Or.inr (Or.inr (Or.inr
        (Or.inr (Or.inr (Or.inr (Or.inr hAD))))))))))
  · rcases List.mem_singleton.1 hEND with rfl
    exact Or.inr (Or.inr (Or.inl rfl))

theorem isPrefixL_append_mismatch (t p w : List Char)
    (h1 : isPrefixL t p = false) (h2 : isPrefixL p t = false) :
    isPrefixL t (p ++ w) = false := by
  induction t generalizing p with
  | nil => simp [isPrefixL] at h1
  | cons a ts ih =>
    cases p with
    | nil => simp [isPrefixL] at h2
    | cons b ps =>
      simp only [List.cons_append, isPrefixL] at h1 h2 ⊢
      by_cases hab : a = b
      · subst hab
        simp only [beq_self_eq_true, Bool.true_and] at h1 h2 ⊢
        exact ih ps h1 h2
      · have : (a == b) = false := beq_eq_false_iff_ne.2 hab
        simp [this]

theorem no_pre (tag pre w : String)
    (h1 : isPrefixL tag.data pre.data = false)
    (h2 : isPrefixL pre.data tag.data = false) :
    isPrefixL tag.data (pre ++ w).data = false := by
  rw [String.data_append]
  exact isPrefixL_append_mismatch _ _ _ h1 h2

theorem optTag_no (tag pre suffix : String) (v : Json)
    (h1 : isPrefixL tag.data pre.data = false)
    (h2 : isPrefixL pre.data tag.data = false) :
    ∀ l ∈ optLine pre suffix v, isPrefixL tag.data l.data = false := by
  intro l hl
  rw [mem_optLine pre suffix v l hl]
  exact no_pre tag pre _ h1 h2

theorem nameSeg_no (tag : String) (data : List (String × Json))
    (hN1 : isPrefixL tag.data "N:".data = false)
    (hN2 : isPrefixL "N:".data tag.data = false)
    (hF1 : isPrefixL tag.data "FN:".data = false)
    (hF2 : isPrefixL "FN:".data tag.data = false) :
    ∀ n, nameSegment data = .ok n →
      ∀ l ∈ n, isPrefixL tag.data l.data = false := by
  intro n hn l hln
  rcases nameSegment_shape data n hn with rfl | ⟨x, y, rfl⟩
  · simp at hln
  · rcases List.mem_cons.1 hln with rfl | hln
    · exact no_pre tag "N:" x hN1 hN2
    · rcases List.mem_singleton.1 hln with rfl
      exact no_pre tag "FN:" y hF1 hF2

theorem orgSeg_no (tag : String) (data : List (String × Json))
    (h1 : isPrefixL tag.data "ORG:".data = false)
    (h2 : isPrefixL "ORG:".data tag.data = false) :
    ∀ o, orgSegment data = .ok o →
      ∀ l ∈ o, isPrefixL tag.data l.data = false := by
  intro o ho l hlo
  rcases orgSegment_shape data o ho with rfl | ⟨x, rfl⟩
  · simp at hlo
  · rcases List.mem_singleton.1 hlo with rfl
    exact no_pre tag "ORG:" x h1 h2

theorem phoneSeg_no (tag : String) (data : List (String × Json))
    (h1 : isPrefixL tag.data "TEL;TYPE=WORK:".data = false)
    (h2 : isPrefixL "TEL;TYPE=WORK:".data tag.data = false) :
    ∀ p, phoneSegment data = .ok p →
      ∀ l ∈ p, isPrefixL tag.data l.data = false := by
  intro p hp l hl
  rcases phoneSegment_shape data p hp l hl with ⟨v, rfl⟩
  exact no_pre tag "TEL;TYPE=WORK:" v h1 h2

theorem emailSeg_no (tag : String) (data : List (String × Json))
    (h1 : isPrefixL tag.data "EMAIL:".data = false)
    (h2 : isPrefixL "EMAIL:".data tag.data = false) :
    ∀ p, emailSegment data = .ok p →
      ∀ l ∈ p, isPrefixL tag.data l.data = false := by
  intro p hp l hl
  rcases emailSegment_shape data p hp l hl with ⟨v, rfl⟩
  exact no_pre tag "EMAIL:" v h1 h2

theorem pyGetD_absent (data : List (String × Json)) (k : String) (d : Json)
    (h : lookupKey data k = none) : pyGetD data k d = d := by
  simp [pyGetD, h]

theorem nameSegment_absent (data : List (String × Json))
    (h : lookupKey data "name" = none) : nameSegment data = .ok [] := by
  simp [nameSegment, pyGetD_absent data "name" _ h, jsonTruthy]

theorem orgSegment_absent (data : List (String × Json))
    (h1 : lookupKey data "company" = none)
    (h2 : lookupKey data "department" = none) : orgSegment data = .ok [] := by
  simp [orgSegment, pyGetD_absent data "company" _ h1,
    pyGetD_absent data "department" _ h2, jsonTruthy]

theorem titleLines_absent (data : List (String × Json))
    (h : lookupKey data "title" = none) : titleLines data = [] := by
  simp [titleLines, pyGetD_absent data "title" _ h, optLine, jsonTruthy]

theorem mobileLines_absent (data : List (String × Json))
    (h : lookupKey data "mobile" = none) : mobileLines data = [] := by
  simp [mobileLines, pyGetD_absent data "mobile" _ h, optLine, jsonTruthy]

theorem faxLines_absent (data : List (String × Json))
    (h : lookupKey data "fax" = none) : faxLines data = [] := by
  simp [faxLines, pyGetD_absent data "fax" _ h, optLine, jsonTruthy]

theorem websiteLines_absent (data : List (String × Json))
    (h : lookupKey data "website" = none) : websiteLines data = [] := by
  simp [websiteLines, pyGetD_absent data "website" _ h, optLine, jsonTruthy]

theorem addressLines_absent (data : List (String × Json))
    (h : lookupKey data "address" = none) : addressLines data = [] := by
  simp [addressLines, pyGetD_absent data "address" _ h, optLine, jsonTruthy]

theorem phoneSegment_absent (data : List (String × Json))
    (h : lookupKey data "phone" = none) : phoneSegment data = .ok [] := by
  simp [phoneSegment, pyGetD_absent data "phone" _ h, loopElems, Except.map]

theorem emailSegment_absent (data : List (String × Json))
    (h : lookupKey data "email" = none) : emailSegment data = .ok [] := by
  simp [emailSegment, pyGetD_absent data "email" _ h, loopElems, Except.map]

theorem noLine_of_segments (data : List (String × Json)) (ls : List String)
    (tag : String) (hok : vcardLines data = .ok ls)
    (hc1 : isPrefixL tag.data "BEGIN:VCARD".data = false)
    (hc2 : isPrefixL tag.data "VERSION:3.0".data = false)
    (hc3 : isPrefixL tag.data "END:VCARD".data = false)
    (hname : ∀ n, nameSegment data = .ok n →
      ∀ l ∈ n, isPrefixL tag.data l.data = false)
    (horg : ∀ o, orgSegment data = .ok o →
      ∀ l ∈ o, isPrefixL tag.data l.data = false)
    (htitle : ∀ l ∈ titleLines data, isPrefixL tag.data l.data = false)
    (hphone : ∀ p, phoneSegment data = .ok p →
      ∀ l ∈ p, isPrefixL tag.data l.data = false)
    (hmobile : ∀ l ∈ mobileLines data, isPrefixL tag.data l.data = false)
    (hfax : ∀ l ∈ faxLines data, isPrefixL tag.data l.data = false)
    (hemail : ∀ p, emailSegment data = .ok p →
      ∀ l ∈ p, isPrefixL tag.data l.data = false)
    (hweb : ∀ l ∈ websiteLines data, isPrefixL tag.data l.data = false)
    (haddr : ∀ l ∈ addressLines data, isPrefixL tag.data l.data = false) :
    noLine ls tag := by
  intro l hl
  rcases vcard_mem_cases data ls hok l hl with
    rfl | rfl | rfl | ⟨n, hn, hln⟩ | ⟨o, ho, hlo⟩ | h | ⟨p, hp, hlp⟩ | h | h
      | ⟨e, he, hle⟩ | h | h
  · exact hc1
  · exact hc2
  · exact hc3
  · exact hname n hn l hln
  · exact horg o ho l hlo
  · exact htitle l h
  · exact hphone p hp l hlp
  · exact hmobile l h
  · exact hfax l h
  · exact hemail e he l hle
  · exact hweb l h
  · exact haddr l h

/-- A vacuous line predicate on a segment known to be empty. -/
theorem noLine_empty_seg (xs : List String) (tag : String) (h : xs = []) :
    ∀ l ∈ xs, isPrefixL tag.data l.data = false := by
  subst h
  intro l hl
  simp at hl

/-- A vacuous line predicate on an Except segment known to be `ok []`. -/
theorem noLine_empty_exc (f : Except String (List String)) (tag : String)
    (h : f = .ok []) :
    ∀ p, f = .ok p → ∀ l ∈ p, isPrefixL tag.data l.data = false := by
  intro p hp l hl
  rw [h] at hp
  simp only [Except.ok.injEq] at hp
  subst hp
  simp at hl

/-- The record of the spec's vCard example. -/
def vcardExample : List (String × Json) :=
  [("name", .str "Taro Yamada"), ("company", .str "Acme"),
   ("email", .arr [.str "t@acme.com"])]

/-- The vCard text the example encodes to. -/
def vcardExampleText : String :=
  "BEGIN:VCARD\r\nVERSION:3.0\r\nN:Taro;Yamada;;;\r\nFN:Taro Yamada\r\nORG:Acme\r\nEMAIL:t@acme.com\r\nEND:VCARD"

/-- C8: the record `{name: "Taro Yamada", company: "Acme",
email: ["t@acme.com"]}` encodes to a vCard whose line list contains
`FN:Taro Yamada`, `ORG:Acme` and `EMAIL:t@acme.com`, joined with CRLF
between all lines, with exactly one `BEGIN:VCARD`/`END:VCARD` pair; and for
every record, an absent field produces no line of its tag. -/
theorem vcard_encoding :
    (vcardLines vcardExample = Except.ok
      ["BEGIN:VCARD", "VERSION:3.0", "N:Taro;Yamada;;;", "FN:Taro Yamada",
       "ORG:Acme", "EMAIL:t@acme.com", "END:VCARD"] ∧
     generate_vcard vcardExample = Except.ok vcardExampleText ∧
     vcardExampleText = joinSep "\r\n"
       ["BEGIN:VCARD", "VERSION:3.0", "N:Taro;Yamada;;;", "FN:Taro Yamada",
        "ORG:Acme", "EMAIL:t@acme.com", "END:VCARD"] ∧
     countOccL "BEGIN:VCARD".data vcardExampleText.data = 1 ∧
     countOccL "END:VCARD".data vcardExampleText.data = 1) ∧
    (∀ data ls, vcardLines data = Except.ok ls →
      (lookupKey data "name" = none → noLine ls "N:" ∧ noLine ls "FN:") ∧
      (lookupKey data "company" = none → lookupKey data "department" = none →
        noLine ls "ORG:") ∧
      (lookupKey data "title" = none → noLine ls "TITLE:") ∧
      (lookupKey data "phone" = none → noLine ls "TEL;TYPE=WORK:") ∧
      (lookupKey data "mobile" = none → noLine ls "TEL;TYPE=CELL:") ∧
      (lookupKey data "fax" = none → noLine ls "TEL;TYPE=FAX:") ∧
      (lookupKey data "email" = none → noLine ls "EMAIL:") ∧
      (lookupKey data "website" = none → noLine ls "URL:") ∧
      (lookupKey data "address" = none → noLine ls "ADR;TYPE=WORK:")) := by
  refine ⟨⟨rfl, rfl, rfl, by decide, by decide⟩, ?_⟩
  intro data ls hok
  refine ⟨?_, ?_, ?_, ?_, ?_, ?_, ?_, ?_, ?_⟩
  · intro h
    constructor
    · exact noLine_of_segments data ls "N:" hok (by decide) (by decide)
        (by decide)
        (noLine_empty_exc _ _ (nameSegment_absent data h))
        (orgSeg_no _ data (by decide) (by decide))
        (optTag_no _ "TITLE:" "" _ (by decide) (by decide))
        (phoneSeg_no _ data (by decide) (by decide))
        (optTag_no _ "TEL;TYPE=CELL:" "" _ (by decide) (by decide))
        (optTag_no _ "TEL;TYPE=FAX:" "" _ (by decide) (by decide))
        (emailSeg_no _ data (by decide) (by decide))
        (optTag_no _ "URL:" "" _ (by decide) (by decide))
        (optTag_no _ "ADR;TYPE=WORK:;;" ";;;;日本" _ (by decide) (by decide))
    · exact noLine_of_segments data ls "FN:" hok (by decide) (by decide)
        (by decide)
        (noLine_empty_exc _ _ (nameSegment_absent data h))
        (orgSeg_no _ data (by decide) (by decide))
        (optTag_no _ "TITLE:" "" _ (by decide) (by decide))
        (phoneSeg_no _ data (by decide) (by decide))
        (optTag_no _ "TEL;TYPE=CELL:" "" _ (by decide) (by decide))
        (optTag_no _ "TEL;TYPE=FAX:" "" _ (by decide) (by decide))
        (emailSeg_no _ data (by decide) (by decide))
        (optTag_no _ "URL:" "" _ (by decide) (by decide))
        (optTag_no _ "ADR;TYPE=WORK:;;" ";;;;日本" _ (by decide) (by decide))
  · intro h1 h2
    exact noLine_of_segments data ls "ORG:" hok (by decide) (by decide)
      (by decide)
      (nameSeg_no _ data (by decide) (by decide) (by decide) (by decide))
      (noLine_empty_exc _ _ (orgSegment_absent data h1 h2))
      (optTag_no _ "TITLE:" "" _ (by decide) (by decide))
      (phoneSeg_no _ data (by decide) (by decide))
      (optTag_no _ "TEL;TYPE=CELL:" "" _ (by decide) (by decide))
      (optTag_no _ "TEL;TYPE=FAX:" "" _ (by decide) (by decide))
      (emailSeg_no _ data (by decide) (by decide))
      (optTag_no _ "URL:" "" _ (by decide) (by decide))
      (optTag_no _ "ADR;TYPE=WORK:;;" ";;;;日本" _ (by decide) (by decide))
  · intro h
    exact noLine_of_segments data ls "TITLE:" hok (by decide) (by decide)
      (by decide)
      (nameSeg_no _ data (by decide) (by decide) (by decide) (by decide))
      (orgSeg_no _ data (by decide) (by decide))
      (noLine_empty_seg _ _ (titleLines_absent data h))
      (phoneSeg_no _ data (by decide) (by decide))
      (optTag_no _ "TEL;TYPE=CELL:" "" _ (by decide) (by decide))
      (optTag_no _ "TEL;TYPE=FAX:" "" _ (by decide) (by decide))
      (emailSeg_no _ data (by decide) (by decide))
      (optTag_no _ "URL:" "" _ (by decide) (by decide))
      (optTag_no _ "ADR;TYPE=WORK:;;" ";;;;日本" _ (by decide) (by decide))
  · intro h
    exact noLine_of_segments data ls "TEL;TYPE=WORK:" hok (by decide)
      (by decide) (by decide)
      (nameSeg_no _ data (by decide) (by decide) (by decide) (by decide))
      (orgSeg_no _ data (by decide) (by decide))
      (optTag_no _ "TITLE:" "" _ (by decide) (by decide))
      (noLine_empty_exc _ _ (phoneSegment_absent data h))
      (optTag_no _ "TEL;TYPE=CELL:" "" _ (by decide) (by decide))
      (optTag_no _ "TEL;TYPE=FAX:" "" _ (by decide) (by decide))
      (emailSeg_no _ data (by decide) (by decide))
      (optTag_no _ "URL:" "" _ (by decide) (by decide))
      (optTag_no _ "ADR;TYPE=WORK:;;" ";;;;日本" _ (by decide) (by decide))
  · intro h
    exact noLine_of_segments data ls "TEL;TYPE=CELL:" hok (by decide)
      (by decide) (by decide)
      (nameSeg_no _ data (by decide) (by decide) (by decide) (by decide))
      (orgSeg_no _ data (by decide) (by decide))
      (optTag_no _ "TITLE:" "" _ (by decide) (by decide))
      (phoneSeg_no _ data (by decide) (by decide))
      (noLine_empty_seg _ _ (mobileLines_absent data h))
      (optTag_no _ "TEL;TYPE=FAX:" "" _ (by decide) (by decide))
      (emailSeg_no _ data (by decide) (by decide))
      (optTag_no _ "URL:" "" _ (by decide) (by decide))
      (optTag_no _ "ADR;TYPE=WORK:;;" ";;;;日本" _ (by decide) (by decide))
  · intro h
    exact noLine_of_segments data ls "TEL;TYPE=FAX:" hok (by decide)
      (by decide) (by decide)
      (nameSeg_no _ data (by decide) (by decide) (by decide) (by decide))
      (orgSeg_no _ data (by decide) (by decide))
      (optTag_no _ "TITLE:" "" _ (by decide) (by decide))
      (phoneSeg_no _ data (by decide) (by decide))
      (optTag_no _ "TEL;TYPE=CELL:" "" _ (by decide) (by decide))
      (noLine_empty_seg _ _ (faxLines_absent data h))
      (emailSeg_no _ data (by decide) (by decide))
      (optTag_no _ "URL:" "" _ (by decide) (by decide))
      (optTag_no _ "ADR;TYPE=WORK:;;" ";;;;日本" _ (by decide) (by decide))
  · intro h
    exact noLine_of_segments data ls "EMAIL:" hok (by decide) (by decide)
      (by decide)
      (nameSeg_no _ data (by decide) (by decide) (by decide) (by decide))
      (orgSeg_no _ data (by decide) (by decide))
      (optTag_no _ "TITLE:" "" _ (by decide) (by decide))
      (phoneSeg_no _ data (by decide) (by decide))
      (optTag_no _ "TEL;TYPE=CELL:" "" _ (by decide) (by decide))
      (optTag_no _ "TEL;TYPE=FAX:" "" _ (by decide) (by decide))
      (noLine_empty_exc _ _ (emailSegment_absent data h))
      (optTag_no _ "URL:" "" _ (by decide) (by decide))
      (optTag_no _ "ADR;TYPE=WORK:;;" ";;;;日本" _ (by decide) (by decide))
  · intro h
    exact noLine_of_segments data ls "URL:" hok (by decide) (by decide)
      (by decide)
      (nameSeg_no _ data (by decide) (by decide) (by decide) (by decide))
      (orgSeg_no _ data (by decide) (by decide))
      (optTag_no _ "TITLE:" "" _ (by decide) (by decide))
      (phoneSeg_no _ data (by decide) (by decide))
      (optTag_no _ "TEL;TYPE=CELL:" "" _ (by decide) (by decide))
      (optTag_no _ "TEL;TYPE=FAX:" "" _ (by decide) (by decide))
      (emailSeg_no _ data (by decide) (by decide))
      (noLine_empty_seg _ _ (websiteLines_absent data h))
      (optTag_no _ "ADR;TYPE=WORK:;;" ";;;;日本" _ (by decide) (by decide))
  · intro h
    exact noLine_of_segments data ls "ADR;TYPE=WORK:" hok (by decide)
      (by decide) (by decide)
      (nameSeg_no _ data (by decide) (by decide) (by decide) (by decide))
      (orgSeg_no _ data (by decide) (by decide))
      (optTag_no _ "TITLE:" "" _ (by decide) (by decide))
      (phoneSeg_no _ data (by decide) (by decide))
      (optTag_no _ "TEL;TYPE=CELL:" "" _ (by decide) (by decide))
      (optTag_no _ "TEL;TYPE=FAX:" "" _ (by decide) (by decide))
      (emailSeg_no _ data (by decide) (by decide))
      (optTag_no _ "URL:" "" _ (by decide) (by decide))
      (noLine_empty_seg _ _ (addressLines_absent data h))

/-- Witness for C8 on a record carrying only a name: the absent title
produces no TITLE line. -/
theorem vcard_encoding_witness :
    vcardLines [("name", Json.str "A")] = Except.ok
      ["BEGIN:VCARD", "VERSION:3.0", "N:A;;;;", "FN:A", "END:VCARD"] ∧
    noLine ["BEGIN:VCARD", "VERSION:3.0", "N:A;;;;", "FN:A", "END:VCARD"]
      "TITLE:" :=
  ⟨rfl, ((vcard_encoding.2 [("name", Json.str "A")]
    ["BEGIN:VCARD", "VERSION:3.0", "N:A;;;;", "FN:A", "END:VCARD"]
    rfl).2.2.1) rfl⟩

/- ================== CSV facts (C10) ================== -/

/-- The localized header row `generate_csv` emits. -/
def csvHeaderRow : String :=
  "氏名,氏名（フリガナ）,会社名,部署,役職,電話番号,携帯電話,FAX,メール,Webサイト,住所\r\n"

/-- C10: the CSV encoder returns the empty string on the empty record list
(no localized header row is emitted), while for every non-empty list the
output is the localized header row followed by exactly one row per record. -/
theorem csv_empty_and_header :
    generate_csv [] = "" ∧
    (∀ ds : List (List (String × Json)), ds ≠ [] →
      generate_csv ds = csvHeaderRow
        ++ String.join (ds.map (fun data =>
            csvRow (fieldnames.map (fun f => csvCell (pyGetD data f (.str ""))))))) := by
  refine ⟨rfl, ?_⟩
  intro ds hne
  unfold generate_csv
  rw [if_neg (by simp only [List.isEmpty_iff]; exact hne)]
  rw [show csvRow (fieldnames.map (fun f => pyDictGet header_map f f))
      = csvHeaderRow from rfl]

/-- Witness for C10 on the singleton list holding the all-default record:
the output is the header row plus one all-empty row. -/
theorem csv_empty_and_header_witness :
    generate_csv [default_data] = csvHeaderRow ++ ",,,,,,,,,,\r\n" := by
  have h := csv_empty_and_header.2 [default_data] (by simp)
  rw [h]
  rfl

/- ================== Round trip: measures and well-formedness ================== -/

mutual
/-- Fuel needed by `parseCore` to parse the dump of a value. -/
def jmeasure : Json → Nat
  | .null => 1
  | .bool _ => 1
  | .num _ => 1
  | .str _ => 1
  | .arr xs => 1 + lmArr xs
  | .obj fs => 1 + lmObj fs

def lmArr : List Json → Nat
  | [] => 0
  | x :: xs => 1 + max (jmeasure x) (lmArr xs)

def lmObj : List (String × Json) → Nat
  | [] => 0
  | kv :: fs => 1 + max (jmeasure kv.2) (lmObj fs)
end

/-- Keys of an object are pairwise distinct. -/
def noDupKeys : List (String × Json) → Bool
  | [] => true
  | (k, _) :: fs => !(fs.any (fun kv => kv.1 == k)) && noDupKeys fs

mutual
/-- Every object inside the value has pairwise distinct keys (true for
everything `json.loads` produces; Python dicts cannot hold duplicates). -/
def wfJson : Json → Bool
  | .null => true
  | .bool _ => true
  | .num _ => true
  | .str _ => true
  | .arr xs => wfList xs
  | .obj fs => noDupKeys fs && wfFields fs

def wfList : List Json → Bool
  | [] => true
  | x :: xs => wfJson x && wfList xs

def wfFields : List (String × Json) → Bool
  | [] => true
  | kv :: fs => wfJson kv.2 && wfFields fs
end

theorem jmeasure_pos (v : Json) : 1 ≤ jmeasure v := by
  cases v <;> simp [jmeasure]

theorem wfList_append (a b : List Json) :
    wfList (a ++ b) = (wfList a && wfList b) := by
  induction a with
  | nil => simp [wfList]
  | cons x xs ih => simp [wfList, ih, Bool.and_assoc]

theorem wfFields_append (a b : List (String × Json)) :
    wfFields (a ++ b) = (wfFields a && wfFields b) := by
  induction a with
  | nil => simp [wfFields]
  | cons kv fs ih => simp [wfFields, ih, Bool.and_assoc]

/-- `lookupKey` misses exactly when the key is absent. -/
theorem lookupKey_eq_none_iff (fields : List (String × Json)) (k : String) :
    lookupKey fields k = none ↔ ∀ kv ∈ fields, kv.1 ≠ k := by
  induction fields with
  | nil => simp [lookupKey]
  | cons kv rest ih =>
    rcases kv with ⟨k', v'⟩
    by_cases hk : k' = k
    · subst hk
      simp [lookupKey, ih]
    · simp [lookupKey, hk, ih]

theorem objInsert_of_absent (fields : List (String × Json)) (k : String)
    (v : Json) (h : ∀ kv ∈ fields, kv.1 ≠ k) :
    objInsert fields k v = fields ++ [(k, v)] := by
  induction fields with
  | nil => rfl
  | cons kv rest ih =>
    rcases kv with ⟨k', v'⟩
    have hk : k' ≠ k := h (k', v') (by simp)
    simp only [objInsert, hk, if_false]
    rw [ih (fun kv hkv => h kv (by simp [hkv]))]
    simp

theorem noDupKeys_append_singleton (fields : List (String × Json))
    (k : String) (v : Json) (hnd : noDupKeys fields = true)
    (h : ∀ kv ∈ fields, kv.1 ≠ k) :
    noDupKeys (fields ++ [(k, v)]) = true := by
  induction fields with
  | nil => simp [noDupKeys]
  | cons kv rest ih =>
    rcases kv with ⟨k', v'⟩
    simp only [noDupKeys, Bool.and_eq_true, Bool.not_eq_true'] at hnd
    rcases hnd with ⟨hany, hrest⟩
    have hk : k' ≠ k := h (k', v') (by simp)
    simp only [List.cons_append, noDupKeys, Bool.and_eq_true, Bool.not_eq_true']
    refine ⟨?_, ih hrest (fun kv hkv => h kv (by simp [hkv]))⟩
    simp only [List.append_eq, List.any_append, List.any_cons, List.any_nil,
      Bool.or_false, Bool.or_eq_false_iff]
    exact ⟨hany, beq_eq_false_iff_ne.2 (fun hc => hk hc.symm)⟩

theorem wf_fillDefaults (ds fields : List (String × Json))
    (hwds : wfFields ds = true)
    (hnd : noDupKeys fields = true) (hwf : wfFields fields = true) :
    noDupKeys (ds.foldl fillStep fields) = true ∧
    wfFields (ds.foldl fillStep fields) = true := by
  induction ds generalizing fields with
  | nil => exact ⟨hnd, hwf⟩
  | cons kd rest ih =>
    simp only [wfFields, Bool.and_eq_true] at hwds
    simp only [List.foldl_cons]
    have hstep : noDupKeys (fillStep fields kd) = true ∧
        wfFields (fillStep fields kd) = true := by
      unfold fillStep
      split
      · exact ⟨hnd, hwf⟩
      · rename_i hnone
        have hmiss : lookupKey fields kd.1 = none := by
          cases hlk : lookupKey fields kd.1 with
          | none => rfl
          | some w => rw [hlk] at hnone; simp at hnone
        have habs := (lookupKey_eq_none_iff fields kd.1).1 hmiss
        constructor
        · rcases kd with ⟨k, d⟩
          exact noDupKeys_append_singleton fields k d hnd habs
        · rw [wfFields_append]
          simp [wfFields, hwf, hwds.1]
    exact ih (fillStep fields kd) hwds.2 hstep.1 hstep.2

/- ================== Round trip: numbers ================== -/

theorem digitOf_spec (n : Nat) (h : n < 10) :
    isDigitC (digitOf n) = true ∧ (digitOf n).toNat - 48 = n ∧
    isJsonWS (digitOf n) = false := by
  interval_cases n <;> exact ⟨rfl, rfl, rfl⟩

theorem digitsToNat_append (a : List Char) (d : Char) :
    digitsToNat (a ++ [d]) = 10 * digitsToNat a + (d.toNat - 48) := by
  unfold digitsToNat
  rw [List.foldl_append]
  rfl

theorem natToCharsAux_spec : ∀ fuel n, n ≤ fuel →
    (∀ c ∈ natToCharsAux fuel n, isDigitC c = true) ∧
    natToCharsAux fuel n ≠ [] ∧
    digitsToNat (natToCharsAux fuel n) = n := by
  intro fuel
  induction fuel with
  | zero =>
    intro n hn
    interval_cases n
    exact ⟨by decide, by decide, by decide⟩
  | succ f ih =>
    intro n hn
    by_cases h10 : n < 10
    · simp only [natToCharsAux, h10, if_true]
      refine ⟨?_, by simp, ?_⟩
      · intro c hc
        rcases List.mem_singleton.1 hc with rfl
        exact (digitOf_spec n h10).1
      · show digitsToNat ([] ++ [digitOf n]) = n
        rw [digitsToNat_append]
        have := (digitOf_spec n h10).2.1
        simp [digitsToNat]
        omega
    · rcases ih (n / 10) (by omega) with ⟨hd, hne, hv⟩
      simp only [natToCharsAux, h10, if_false]
      refine ⟨?_, by simp, ?_⟩
      · intro c hc
        rcases List.mem_append.1 hc with hc | hc
        · exact hd c hc
        · rcases List.mem_singleton.1 hc with rfl
          exact (digitOf_spec (n % 10) (by omega)).1
      · rw [digitsToNat_append, hv]
        have := (digitOf_spec (n % 10) (by omega)).2.1
        omega

theorem natToChars_spec (n : Nat) :
    (∀ c ∈ natToChars n, isDigitC c = true) ∧
    natToChars n ≠ [] ∧ digitsToNat (natToChars n) = n :=
  natToCharsAux_spec n n (le_refl n)

/-- The continuation after a dumped number must not extend the literal. -/
def numSepOk (rest : List Char) : Prop :=
  rest = [] ∨ ∃ c r', rest = c :: r' ∧ isDigitC c = false ∧
    c ≠ '.' ∧ c ≠ 'e' ∧ c ≠ 'E'

theorem span_digits (ds rest : List Char)
    (hds : ∀ c ∈ ds, isDigitC c = true)
    (hrest : ∀ c r', rest = c :: r' → isDigitC c = false) :
    (ds ++ rest).takeWhile isDigitC = ds ∧
    (ds ++ rest).dropWhile isDigitC = rest := by
  induction ds with
  | nil =>
    cases rest with
    | nil => exact ⟨rfl, rfl⟩
    | cons c r' =>
      have := hrest c r' rfl
      simp [List.takeWhile_cons, List.dropWhile_cons, this]
  | cons d ds' ih =>
    have hd : isDigitC d = true := hds d (by simp)
    rcases ih (fun c hc => hds c (by simp [hc])) with ⟨h1, h2⟩
    simp [List.takeWhile_cons, List.dropWhile_cons, hd, h1, h2]

theorem parseUIntNum_natToChars (n : Nat) (rest : List Char)
    (hrest : numSepOk rest) :
    parseUIntNum (natToChars n ++ rest) = some (n, rest) := by
  rcases natToChars_spec n with ⟨hd, hne, hv⟩
  have hr : ∀ c r', rest = c :: r' → isDigitC c = false := by
    rcases hrest with rfl | ⟨c, r', rfl, hc, -⟩
    · intro c r' h
      simp at h
    · intro c2 r2 h
      rcases h with ⟨⟩
      exact hc
  rcases span_digits (natToChars n) rest hd hr with ⟨h1, h2⟩
  unfold parseUIntNum
  simp only [h1, h2]
  rw [if_neg (by simpa using hne)]
  rcases hrest with rfl | ⟨c, r', rfl, hc, hdot, he, hE⟩
  · simp [hv]
  · have : ∀ r0, r0 = c :: r' →
        (match r0 with
         | '.' :: _ => none
         | 'e' :: _ => none
         | 'E' :: _ => none
         | _ => some (digitsToNat (natToChars n), r0))
          = some (digitsToNat (natToChars n), r0) := by
      intro r0 hr0
      subst hr0
      split
      · rename_i heq
        rcases heq with ⟨⟩
        exact absurd rfl hdot
      · rename_i heq
        rcases heq with ⟨⟩
        exact absurd rfl he
      · rename_i heq
        rcases heq with ⟨⟩
        exact absurd rfl hE
      · rfl
    rw [this (c :: r') rfl, hv]

theorem parseIntNum_intToChars (i : Int) (rest : List Char)
    (hrest : numSepOk rest) :
    parseIntNum (intToChars i ++ rest) = some (i, rest) := by
  by_cases hneg : i < 0
  · have hichars : intToChars i = '-' :: natToChars (-i).toNat := by
      simp [intToChars, hneg]
    rw [hichars]
    show parseIntNum ('-' :: (natToChars (-i).toNat ++ rest)) = some (i, rest)
    show Option.map (fun p => (-(p.1 : Int), p.2))
      (parseUIntNum (natToChars (-i).toNat ++ rest)) = some (i, rest)
    rw [parseUIntNum_natToChars _ rest hrest]
    have hval : -(((-i).toNat : Nat) : Int) = i := by omega
    show some (-(((-i).toNat : Nat) : Int), rest) = some (i, rest)
    rw [hval]
  · have hichars : intToChars i = natToChars i.toNat := by
      simp [intToChars, hneg]
    rw [hichars]
    rcases natToChars_spec i.toNat with ⟨hd, hne, -⟩
    rcases hlist : natToChars i.toNat with _ | ⟨c, cs⟩
    · exact absurd hlist hne
    · have hc : isDigitC c = true :=
        hd c (by rw [hlist]; exact List.mem_cons_self c cs)
      have hcm : c ≠ '-' := by
        intro hcc
        subst hcc
        exact absurd hc (by decide)
      show parseIntNum (c :: (cs ++ rest)) = some (i, rest)
      unfold parseIntNum
      split
      · rename_i heq
        rw [List.cons.injEq] at heq
        exact absurd heq.1 hcm
      · have heq2 : c :: (cs ++ rest) = natToChars i.toNat ++ rest := by
          rw [hlist]
          simp
        rw [heq2, parseUIntNum_natToChars _ rest hrest]
        have hval : ((i.toNat : Nat) : Int) = i := by omega
        show some (((i.toNat : Nat) : Int), rest) = some (i, rest)
        rw [hval]

/- ================== Round trip: strings ================== -/

theorem hexVal_hexDigitOf (m : Nat) (h : m < 16) :
    hexVal (hexDigitOf m) = some m := by
  interval_cases m <;> decide

theorem parseStringBody_escapes (s rest : List Char) :
    parseStringBody (s.flatMap escSeq ++ '"' :: rest) = some (s, rest) := by
  induction s with
  | nil =>
    rw [List.flatMap_nil, List.nil_append]
    unfold parseStringBody
    simp
  | cons c cs ih =>
    simp only [List.flatMap_cons, List.append_assoc]
    by_cases h1 : c = '"'
    · subst h1
      show (parseStringBody (cs.flatMap escSeq ++ '"' :: rest)).map
          (fun p => ('"' :: p.1, p.2)) = some ('"' :: cs, rest)
      rw [ih]
      rfl
    · by_cases h2 : c = '\\'
      · subst h2
        show (parseStringBody (cs.flatMap escSeq ++ '"' :: rest)).map
            (fun p => ('\\' :: p.1, p.2)) = some ('\\' :: cs, rest)
        rw [ih]
        rfl
      · by_cases h3 : c = '\n'
        · subst h3
          show (parseStringBody (cs.flatMap escSeq ++ '"' :: rest)).map
              (fun p => ('\n' :: p.1, p.2)) = some ('\n' :: cs, rest)
          rw [ih]
          rfl
        · by_cases h4 : c = '\r'
          · subst h4
            show (parseStringBody (cs.flatMap escSeq ++ '"' :: rest)).map
                (fun p => ('\r' :: p.1, p.2)) = some ('\r' :: cs, rest)
            rw [ih]
            rfl
          · by_cases h5 : c = '\t'
            · subst h5
              show (parseStringBody (cs.flatMap escSeq ++ '"' :: rest)).map
                  (fun p => ('\t' :: p.1, p.2)) = some ('\t' :: cs, rest)
              rw [ih]
              rfl
            · by_cases h6 : c = '\x08'
              · subst h6
                show (parseStringBody (cs.flatMap escSeq ++ '"' :: rest)).map
                    (fun p => ('\x08' :: p.1, p.2)) = some ('\x08' :: cs, rest)
                rw [ih]
                rfl
              · by_cases h7 : c = '\x0c'
                · subst h7
                  show (parseStringBody (cs.flatMap escSeq ++ '"' :: rest)).map
                      (fun p => ('\x0c' :: p.1, p.2)) = some ('\x0c' :: cs, rest)
                  rw [ih]
                  rfl
                · by_cases h8 : c.toNat < 32
                  · have hesc : escSeq c = ['\\', 'u', '0', '0',
                        hexDigitOf (c.toNat / 16), hexDigitOf (c.toNat % 16)] := by
                      simp [escSeq, h1, h2, h3, h4, h5, h6, h7, h8]
                    rw [hesc]
                    show (match hexVal '0', hexVal '0',
                        hexVal (hexDigitOf (c.toNat / 16)),
                        hexVal (hexDigitOf (c.toNat % 16)) with
                      | some a, some b, some c3, some d =>
                        (parseStringBody (cs.flatMap escSeq ++ '"' :: rest)).map
                          (fun p =>
                            (Char.ofNat (((a * 16 + b) * 16 + c3) * 16 + d) :: p.1,
                              p.2))
                      | _, _, _, _ => none) = some (c :: cs, rest)
                    rw [hexVal_hexDigitOf (c.toNat / 16) (by omega),
                      hexVal_hexDigitOf (c.toNat % 16) (by omega)]
                    show (parseStringBody (cs.flatMap escSeq ++ '"' :: rest)).map
                        (fun p =>
                          (Char.ofNat (((0 * 16 + 0) * 16 + c.toNat / 16) * 16
                              + c.toNat % 16) :: p.1, p.2)) = some (c :: cs, rest)
                    rw [ih]
                    have harith : ((0 * 16 + 0) * 16 + c.toNat / 16) * 16
                        + c.toNat % 16 = c.toNat := by omega
                    rw [harith, Char.ofNat_toNat]
                    rfl
                  · have hesc : escSeq c = [c] := by
                      simp [escSeq, h1, h2, h3, h4, h5, h6, h7, h8]
                    rw [hesc]
                    show parseStringBody
                        (c :: (cs.flatMap escSeq ++ '"' :: rest))
                        = some (c :: cs, rest)
                    unfold parseStringBody
                    rw [if_neg h1, if_neg h2, if_neg h8, ih]
                    rfl

/- ================== Round trip: separators and dump heads ================== -/

/-- What may follow a dumped value: end of input, a comma, or the newline
before a closing bracket. -/
def sepOk (r : List Char) : Prop :=
  r = [] ∨ (∃ r', r = ',' :: r') ∨ (∃ r', r = '\n' :: r')

theorem sepOk_numSepOk (r : List Char) (h : sepOk r) : numSepOk r := by
  rcases h with rfl | ⟨r', rfl⟩ | ⟨r', rfl⟩
  · exact Or.inl rfl
  · exact Or.inr ⟨',', r', rfl, by decide, by decide, by decide, by decide⟩
  · exact Or.inr ⟨'\n', r', rfl, by decide, by decide, by decide, by decide⟩

theorem skipWs_cons_ws (c : Char) (X : List Char) (h : isJsonWS c = true) :
    skipWs (c :: X) = skipWs X := by
  simp [skipWs, List.dropWhile_cons, h]

theorem skipWs_nonws (c : Char) (X : List Char) (h : isJsonWS c = false) :
    skipWs (c :: X) = c :: X := by
  simp [skipWs, List.dropWhile_cons, h]

theorem skipWs_spaces (n : Nat) (X : List Char) :
    skipWs (spacesC n ++ X) = skipWs X := by
  induction n with
  | zero => rfl
  | succ m ih =>
    show skipWs (' ' :: (spacesC m ++ X)) = skipWs X
    rw [skipWs_cons_ws ' ' _ (by decide), ih]

theorem digit_shape (c : Char) (h : isDigitC c = true) :
    isJsonWS c = false ∧ c ≠ '"' ∧ c ≠ '\x7b' ∧ c ≠ '[' ∧ c ≠ 't' ∧
    c ≠ 'f' ∧ c ≠ 'n' ∧ c ≠ ']' ∧ c ≠ '\x7d' := by
  have hne : ∀ d : Char, isDigitC d = false → c ≠ d := by
    intro d hd hcd
    subst hcd
    rw [h] at hd
    exact Bool.noConfusion hd
  refine ⟨?_, hne _ (by decide), hne _ (by decide), hne _ (by decide),
    hne _ (by decide), hne _ (by decide), hne _ (by decide), hne _ (by decide),
    hne _ (by decide)⟩
  by_contra hc
  simp only [Bool.not_eq_false, isJsonWS, Bool.or_eq_true,
    decide_eq_true_eq] at hc
  rcases hc with ((rfl | rfl) | rfl) | rfl <;> exact absurd h (by decide)

theorem intToChars_shape (i : Int) :
    ∃ c cs, intToChars i = c :: cs ∧ isJsonWS c = false ∧ c ≠ '"' ∧
      c ≠ '\x7b' ∧ c ≠ '[' ∧ c ≠ 't' ∧ c ≠ 'f' ∧ c ≠ 'n' ∧ c ≠ ']' ∧
      c ≠ '\x7d' := by
  by_cases hneg : i < 0
  · refine ⟨'-', natToChars (-i).toNat, by simp [intToChars, hneg], ?_⟩
    refine ⟨by decide, by decide, by decide, by decide, by decide, by decide,
      by decide, by decide, by decide⟩
  · rcases natToChars_spec i.toNat with ⟨hd, hne, -⟩
    rcases hlist : natToChars i.toNat with _ | ⟨c, cs⟩
    · exact absurd hlist hne
    · have hc : isDigitC c = true :=
        hd c (by rw [hlist]; exact List.mem_cons_self c cs)
      rcases digit_shape c hc with ⟨w, a, b, d, e, f2, g, h8, h9⟩
      exact ⟨c, cs, by simp [intToChars, hneg, hlist], w, a, b, d, e, f2, g,
        h8, h9⟩

theorem dumpVal_head (ind : Nat) (v : Json) :
    ∃ c cs, dumpVal ind v = c :: cs ∧ isJsonWS c = false ∧ c ≠ ']' ∧
      c ≠ '\x7d' := by
  cases v with
  | null => exact ⟨'n', _, rfl, by decide, by decide, by decide⟩
  | bool b =>
    cases b
    · exact ⟨'f', _, rfl, by decide, by decide, by decide⟩
    · exact ⟨'t', _, rfl, by decide, by decide, by decide⟩
  | num n =>
    rcases intToChars_shape n with ⟨c, cs, hic, hw, -, -, -, -, -, -, h8, h9⟩
    exact ⟨c, cs, hic, hw, h8, h9⟩
  | str s => exact ⟨'"', _, rfl, by decide, by decide, by decide⟩
  | arr xs =>
    cases xs with
    | nil => exact ⟨'[', _, rfl, by decide, by decide, by decide⟩
    | cons x xs => exact ⟨'[', _, rfl, by decide, by decide, by decide⟩
  | obj fs =>
    cases fs with
    | nil => exact ⟨'\x7b', _, rfl, by decide, by decide, by decide⟩
    | cons kv fs => exact ⟨'\x7b', _, rfl, by decide, by decide, by decide⟩

theorem skipWs_append_ws (w s : List Char) (hw : ∀ c ∈ w, isJsonWS c = true) :
    skipWs (w ++ s) = skipWs s := by
  induction w with
  | nil => rfl
  | cons c w' ih =>
    rw [List.cons_append, skipWs_cons_ws c _ (hw c (by simp))]
    exact ih (fun c hc => hw c (by simp [hc]))

theorem parseCore_val_ws (f : Nat) (w s : List Char)
    (hw : ∀ c ∈ w, isJsonWS c = true) :
    parseCore f .val (w ++ s) = parseCore f .val s := by
  cases f with
  | zero => rfl
  | succ g =>
    simp only [parseCore]
    rw [skipWs_append_ws w s hw]

/-- Inside a duplicate-free field list, no earlier field carries the key of
a later one. -/
theorem noDupKeys_key_absent (a b : List (String × Json)) (k : String)
    (v : Json) (h : noDupKeys (a ++ (k, v) :: b) = true) :
    ∀ kv ∈ a, kv.1 ≠ k := by
  induction a with
  | nil => simp
  | cons kv' a' ih =>
    rcases kv' with ⟨k', v'⟩
    simp only [List.cons_append, noDupKeys, Bool.and_eq_true,
      Bool.not_eq_true'] at h
    rcases h with ⟨hany, hrest⟩
    intro kv hkv
    rcases List.mem_cons.mp hkv with rfl | hkv
    · intro hkk
      have h2 := (List.any_eq_false.mp hany) (k, v) (by simp)
      simp only at h2
      exact h2 (by simp [show k' = k from hkk])
    · exact ih hrest kv hkv

theorem objInsert_any_other (r : List (String × Json)) (k k' : String)
    (v : Json) (hkk : k ≠ k') :
    (objInsert r k v).any (fun kv => kv.1 == k')
      = r.any (fun kv => kv.1 == k') := by
  induction r with
  | nil => simp [objInsert, beq_eq_false_iff_ne, hkk]
  | cons ab r' ih =>
    rcases ab with ⟨a, b⟩
    by_cases ha : a = k
    · subst ha
      simp [objInsert]
    · simp [objInsert, ha, ih]

theorem objInsert_noDupKeys (fs : List (String × Json)) (k : String)
    (v : Json) (h : noDupKeys fs = true) :
    noDupKeys (objInsert fs k v) = true := by
  induction fs with
  | nil => simp [objInsert, noDupKeys]
  | cons ab r ih =>
    rcases ab with ⟨a, b⟩
    simp only [noDupKeys, Bool.and_eq_true, Bool.not_eq_true'] at h
    rcases h with ⟨hany, hrest⟩
    by_cases ha : a = k
    · subst ha
      simp only [objInsert, if_pos rfl, noDupKeys, Bool.and_eq_true,
        Bool.not_eq_true']
      exact ⟨hany, hrest⟩
    · simp only [objInsert, if_neg ha, noDupKeys, Bool.and_eq_true,
        Bool.not_eq_true']
      refine ⟨?_, ih hrest⟩
      rw [objInsert_any_other r k a v (fun hc => ha hc.symm)]
      exact hany

theorem objInsert_wfFields (fs : List (String × Json)) (k : String)
    (v : Json) (hv : wfJson v = true) (h : wfFields fs = true) :
    wfFields (objInsert fs k v) = true := by
  induction fs with
  | nil => simp [objInsert, wfFields, hv]
  | cons ab r ih =>
    rcases ab with ⟨a, b⟩
    simp only [wfFields, Bool.and_eq_true] at h
    by_cases ha : a = k
    · subst ha
      simp only [objInsert, if_pos rfl, wfFields, Bool.and_eq_true]
      exact ⟨hv, h.2⟩
    · simp only [objInsert, if_neg ha, wfFields, Bool.and_eq_true]
      exact ⟨h.1, ih h.2⟩

theorem parseCore_val_step (g : Nat) (c : Char) (tail : List Char)
    (hcw : isJsonWS c = false) :
    parseCore (g+1) .val (c :: tail) =
      (if c = '"' then
        (parseStringBody tail).map (fun p => (Json.str ⟨p.1⟩, p.2))
      else if c = '\x7b' then
        match skipWs tail with
        | '\x7d' :: rest2 => some (.obj [], rest2)
        | rest2 => parseCore g (.objTail []) rest2
      else if c = '[' then
        match skipWs tail with
        | ']' :: rest2 => some (.arr [], rest2)
        | rest2 => parseCore g (.arrTail []) rest2
      else if c = 't' then
        if isPrefixL ['r','u','e'] tail then some (.bool true, tail.drop 3)
        else none
      else if c = 'f' then
        if isPrefixL ['a','l','s','e'] tail then some (.bool false, tail.drop 4)
        else none
      else if c = 'n' then
        if isPrefixL ['u','l','l'] tail then some (.null, tail.drop 3)
        else none
      else (parseIntNum (c :: tail)).map (fun p => (Json.num p.1, p.2))) := by
  simp only [parseCore]
  rw [skipWs_nonws c tail hcw]

theorem ws_nl_spaces (n : Nat) : ∀ c ∈ '\n' :: spacesC n, isJsonWS c = true := by
  intro c hc
  rcases List.mem_cons.mp hc with rfl | hc
  · decide
  · rw [List.eq_of_mem_replicate hc]
    decide

/-- Re-parsing a `json.dumps` image: parsing a dumped value (with a
permitted separator following) recovers the value, and likewise for the
element/member continuation modes, as long as the fuel covers the nesting
measure and every object carries duplicate-free keys. -/
theorem parse_dump (fuel : Nat) :
    (∀ v ind rest, wfJson v = true → jmeasure v ≤ fuel → sepOk rest →
      parseCore fuel .val (dumpVal ind v ++ rest) = some (v, rest)) ∧
    (∀ w x xs acc ind rest, (∀ c ∈ w, isJsonWS c = true) →
      wfList (x :: xs) = true → lmArr (x :: xs) ≤ fuel →
      parseCore fuel (.arrTail acc)
        (w ++ (dumpVal (ind + 2) x ++ (dumpArrTail (ind + 2) xs ++
          '\n' :: (spacesC ind ++ (']' :: rest))))) =
        some (.arr (acc ++ x :: xs), rest)) ∧
    (∀ w k v fs acc ind rest, (∀ c ∈ w, isJsonWS c = true) →
      wfFields ((k, v) :: fs) = true →
      noDupKeys (acc ++ (k, v) :: fs) = true →
      lmObj ((k, v) :: fs) ≤ fuel →
      parseCore fuel (.objTail acc)
        (w ++ (dumpStrL k.data ++ (':' :: ' ' :: (dumpVal (ind + 2) v ++
          (dumpObjTail (ind + 2) fs ++
          '\n' :: (spacesC ind ++ ('\x7d' :: rest))))))) =
        some (.obj (acc ++ (k, v) :: fs), rest)) := by
  induction fuel with
  | zero =>
    refine ⟨?_, ?_, ?_⟩
    · intro v ind rest _ hm _
      exact absurd hm (by have := jmeasure_pos v; omega)
    · intro w x xs acc ind rest _ _ hm
      exact absurd hm (by simp only [lmArr]; omega)
    · intro w k v fs acc ind rest _ _ _ hm
      exact absurd hm (by simp only [lmObj]; omega)
  | succ f ih =>
    obtain ⟨ihv, iha, iho⟩ := ih
    refine ⟨?_, ?_, ?_⟩
    · intro v ind rest hwf hm hsep
      cases v with
      | null => simp [dumpVal, parseCore, skipWs, isJsonWS, isPrefixL]
      | bool b =>
        cases b <;> simp [dumpVal, parseCore, skipWs, isJsonWS, isPrefixL]
      | num n =>
        rcases intToChars_shape n with
          ⟨c, cs, hic, hw0, h1, h2, h3, h4, h5, h6, h7, h8⟩
        rw [show dumpVal ind (.num n) ++ rest = c :: (cs ++ rest) from by
          simp [dumpVal, hic]]
        rw [parseCore_val_step f c _ hw0,
          if_neg h1, if_neg h2, if_neg h3, if_neg h4, if_neg h5, if_neg h6]
        rw [show c :: (cs ++ rest) = intToChars n ++ rest from by
          rw [hic]; rfl]
        rw [parseIntNum_intToChars n rest (sepOk_numSepOk rest hsep)]
        rfl
      | str s =>
        rw [show dumpVal ind (.str s) ++ rest
            = '"' :: (s.data.flatMap escSeq ++ '"' :: rest) from by
          simp [dumpVal, dumpStrL]]
        simp [parseCore, skipWs, isJsonWS, parseStringBody_escapes]
      | arr xs =>
        cases xs with
        | nil => simp [dumpVal, dumpArr, parseCore, skipWs, isJsonWS]
        | cons x xs' =>
          rcases dumpVal_head (ind+2) x with ⟨c, cs, hc, hcw, hcb, hcB⟩
          rw [show dumpVal ind (.arr (x :: xs')) ++ rest
              = '[' :: ('\n' :: (spacesC (ind+2) ++ (dumpVal (ind+2) x
                ++ (dumpArrTail (ind+2) xs'
                  ++ '\n' :: (spacesC ind ++ (']' :: rest)))))) from by
            simp [dumpVal, dumpArr]]
          rw [parseCore_val_step f '[' _ (by decide),
            if_neg (show ('[':Char) = '"' → False by decide),
            if_neg (show ('[':Char) = '\x7b' → False by decide), if_pos rfl]
          rw [skipWs_cons_ws _ _ (by decide), skipWs_spaces]
          rw [show dumpVal (ind+2) x ++ (dumpArrTail (ind+2) xs'
                ++ '\n' :: (spacesC ind ++ (']' :: rest)))
              = c :: (cs ++ (dumpArrTail (ind+2) xs'
                ++ '\n' :: (spacesC ind ++ (']' :: rest)))) from by
            rw [hc]; rfl]
          rw [skipWs_nonws c _ hcw]
          split
          · rename_i rest2 heq
            rw [List.cons.injEq] at heq
            exact absurd heq.1 hcb
          · rw [show c :: (cs ++ (dumpArrTail (ind+2) xs'
                  ++ '\n' :: (spacesC ind ++ (']' :: rest))))
                = dumpVal (ind+2) x ++ (dumpArrTail (ind+2) xs'
                  ++ '\n' :: (spacesC ind ++ (']' :: rest))) from by
              rw [hc]; rfl]
            have hfu : lmArr (x :: xs') ≤ f := by
              simp only [jmeasure] at hm; omega
            simpa using iha [] x xs' [] ind rest (by simp)
              (by simpa [wfJson] using hwf) hfu
      | obj fs =>
        cases fs with
        | nil => simp [dumpVal, dumpObj, parseCore, skipWs, isJsonWS]
        | cons kv fs' =>
          rcases kv with ⟨k, v0⟩
          rw [show dumpVal ind (.obj ((k, v0) :: fs')) ++ rest
              = '\x7b' :: ('\n' :: (spacesC (ind+2) ++ (dumpStrL k.data
                ++ (':' :: ' ' :: (dumpVal (ind+2) v0
                  ++ (dumpObjTail (ind+2) fs'
                    ++ '\n' :: (spacesC ind ++ ('\x7d' :: rest)))))))) from by
            simp [dumpVal, dumpObj]]
          rw [parseCore_val_step f '\x7b' _ (by decide),
            if_neg (show ('\x7b':Char) = '"' → False by decide), if_pos rfl]
          rw [skipWs_cons_ws _ _ (by decide), skipWs_spaces]
          rw [show dumpStrL k.data ++ (':' :: ' ' :: (dumpVal (ind+2) v0
                ++ (dumpObjTail (ind+2) fs'
                  ++ '\n' :: (spacesC ind ++ ('\x7d' :: rest)))))
              = '"' :: (k.data.flatMap escSeq ++ ('"' :: (':' :: ' ' ::
                (dumpVal (ind+2) v0 ++ (dumpObjTail (ind+2) fs'
                  ++ '\n' :: (spacesC ind ++ ('\x7d' :: rest))))))) from by
            simp [dumpStrL]]
          rw [skipWs_nonws '"' _ (by decide)]
          split
          · rename_i rest2 heq
            rw [List.cons.injEq] at heq
            exact absurd heq.1 (by decide)
          · rw [show ('"':Char) :: (k.data.flatMap escSeq ++ ('"' :: (':' :: ' ' ::
                  (dumpVal (ind+2) v0 ++ (dumpObjTail (ind+2) fs'
                    ++ '\n' :: (spacesC ind ++ ('\x7d' :: rest)))))))
                = dumpStrL k.data ++ (':' :: ' ' :: (dumpVal (ind+2) v0
                  ++ (dumpObjTail (ind+2) fs'
                    ++ '\n' :: (spacesC ind ++ ('\x7d' :: rest))))) from by
              simp [dumpStrL]]
            have hfu : lmObj ((k, v0) :: fs') ≤ f := by
              simp only [jmeasure] at hm; omega
            have hnd : noDupKeys ((k, v0) :: fs') = true := by
              simp only [wfJson, Bool.and_eq_true] at hwf
              exact hwf.1
            have hwfd : wfFields ((k, v0) :: fs') = true := by
              simp only [wfJson, Bool.and_eq_true] at hwf
              exact hwf.2
            simpa using iho [] k v0 fs' [] ind rest (by simp) hwfd
              (by simpa using hnd) hfu
    · intro w x xs acc ind rest hw hwf hm
      simp only [parseCore]
      rw [parseCore_val_ws f w _ hw]
      have hsep1 : sepOk (dumpArrTail (ind+2) xs
          ++ '\n' :: (spacesC ind ++ (']' :: rest))) := by
        cases xs with
        | nil => exact Or.inr (Or.inr ⟨_, rfl⟩)
        | cons y ys => exact Or.inr (Or.inl ⟨_, rfl⟩)
      have hwx : wfJson x = true ∧ wfList xs = true := by
        simpa only [wfList, Bool.and_eq_true] using hwf
      have hmx : jmeasure x ≤ f := by
        simp only [lmArr] at hm; omega
      rw [ihv x (ind+2) _ hwx.1 hmx hsep1]
      simp only []
      cases xs with
      | nil =>
        rw [show dumpArrTail (ind+2) ([] : List Json)
              ++ '\n' :: (spacesC ind ++ (']' :: rest))
            = '\n' :: (spacesC ind ++ (']' :: rest)) from rfl]
        rw [skipWs_cons_ws _ _ (by decide), skipWs_spaces,
          skipWs_nonws _ _ (by decide)]
        rfl
      | cons y ys =>
        rw [show dumpArrTail (ind+2) (y :: ys)
              ++ '\n' :: (spacesC ind ++ (']' :: rest))
            = ',' :: ('\n' :: (spacesC (ind+2) ++ (dumpVal (ind+2) y
              ++ (dumpArrTail (ind+2) ys
                ++ '\n' :: (spacesC ind ++ (']' :: rest)))))) from by
          simp [dumpArrTail]]
        rw [skipWs_nonws _ _ (by decide)]
        have hm2 : lmArr (y :: ys) ≤ f := by
          simp only [lmArr] at hm ⊢; omega
        have := iha ('\n' :: spacesC (ind+2)) y ys (acc ++ [x]) ind rest
          (ws_nl_spaces _) (by simpa only [wfList, Bool.and_eq_true]
            using hwx.2) hm2
        simpa [List.append_assoc] using this
    · intro w k v0 fs acc ind rest hw hwf hnd hm
      simp only [parseCore]
      rw [skipWs_append_ws w _ hw]
      rw [show dumpStrL k.data ++ (':' :: ' ' :: (dumpVal (ind+2) v0
            ++ (dumpObjTail (ind+2) fs
              ++ '\n' :: (spacesC ind ++ ('\x7d' :: rest)))))
          = '"' :: (k.data.flatMap escSeq ++ ('"' :: (':' :: ' ' ::
            (dumpVal (ind+2) v0 ++ (dumpObjTail (ind+2) fs
              ++ '\n' :: (spacesC ind ++ ('\x7d' :: rest))))))) from by
        simp [dumpStrL]]
      rw [skipWs_nonws '"' _ (by decide)]
      split
      · rename_i rest0 heq
        rw [List.cons.injEq] at heq
        obtain ⟨-, h2⟩ := heq
        subst h2
        rw [parseStringBody_escapes k.data
          ((':' :: ' ' :: (dumpVal (ind+2) v0 ++ (dumpObjTail (ind+2) fs
            ++ '\n' :: (spacesC ind ++ ('\x7d' :: rest))))))]
        simp only []
        rw [skipWs_nonws ':' _ (by decide)]
        split
        · rename_i rest3 heq2
          rw [List.cons.injEq] at heq2
          obtain ⟨-, h3⟩ := heq2
          subst h3
          rw [show (' ' :: (dumpVal (ind+2) v0 ++ (dumpObjTail (ind+2) fs
                ++ '\n' :: (spacesC ind ++ ('\x7d' :: rest)))))
              = [' '] ++ (dumpVal (ind+2) v0 ++ (dumpObjTail (ind+2) fs
                ++ '\n' :: (spacesC ind ++ ('\x7d' :: rest)))) from rfl]
          rw [parseCore_val_ws f [' '] _ (by intro c hc; simp at hc; subst hc; rfl)]
          have hsep1 : sepOk (dumpObjTail (ind+2) fs
              ++ '\n' :: (spacesC ind ++ ('\x7d' :: rest))) := by
            cases fs with
            | nil => exact Or.inr (Or.inr ⟨_, rfl⟩)
            | cons kv2 fs2 => exact Or.inr (Or.inl ⟨_, rfl⟩)
          have hwx : wfJson v0 = true ∧ wfFields fs = true := by
            simpa only [wfFields, Bool.and_eq_true] using hwf
          have hmx : jmeasure v0 ≤ f := by
            simp only [lmObj] at hm; omega
          rw [ihv v0 (ind+2) _ hwx.1 hmx hsep1]
          simp only []
          have habs : ∀ kv ∈ acc, kv.1 ≠ k := noDupKeys_key_absent acc fs k v0 hnd
          have hoi : objInsert acc k v0 = acc ++ [(k, v0)] :=
            objInsert_of_absent acc k v0 habs
          cases fs with
          | nil =>
            rw [show dumpObjTail (ind+2) ([] : List (String × Json))
                  ++ '\n' :: (spacesC ind ++ ('\x7d' :: rest))
                = '\n' :: (spacesC ind ++ ('\x7d' :: rest)) from rfl]
            rw [skipWs_cons_ws _ _ (by decide), skipWs_spaces,
              skipWs_nonws _ _ (by decide)]
            simp [hoi]
          | cons kv2 fs2 =>
            rcases kv2 with ⟨k2, v2⟩
            rw [show dumpObjTail (ind+2) ((k2, v2) :: fs2)
                  ++ '\n' :: (spacesC ind ++ ('\x7d' :: rest))
                = ',' :: ('\n' :: (spacesC (ind+2) ++ (dumpStrL k2.data
                  ++ (':' :: ' ' :: (dumpVal (ind+2) v2
                    ++ (dumpObjTail (ind+2) fs2
                      ++ '\n' :: (spacesC ind ++ ('\x7d' :: rest)))))))) from by
              simp [dumpObjTail]]
            rw [skipWs_nonws _ _ (by decide)]
            have hm2 : lmObj ((k2, v2) :: fs2) ≤ f := by
              simp only [lmObj] at hm ⊢; omega
            have hnd2 : noDupKeys ((acc ++ [(k, v0)]) ++ (k2, v2) :: fs2) = true := by
              rw [List.append_assoc]
              simpa using hnd
            have := iho ('\n' :: spacesC (ind+2)) k2 v2 fs2 (acc ++ [(k, v0)])
              ind rest (ws_nl_spaces _) hwx.2 hnd2 hm2
            rw [hoi]
            simpa [List.append_assoc] using this
        · rename_i hne
          exact absurd rfl (hne _)
      · rename_i hne
        exact absurd rfl (hne _)

/-- Everything the parser produces is well-formed: objects built through
`objInsert` (Python-dict assignment) never hold duplicate keys. -/
theorem parseCore_wf (fuel : Nat) :
    (∀ s v rest, parseCore fuel .val s = some (v, rest) → wfJson v = true) ∧
    (∀ acc s v rest, wfList acc = true →
      parseCore fuel (.arrTail acc) s = some (v, rest) → wfJson v = true) ∧
    (∀ acc s v rest, noDupKeys acc = true → wfFields acc = true →
      parseCore fuel (.objTail acc) s = some (v, rest) → wfJson v = true) := by
  induction fuel with
  | zero =>
    refine ⟨?_, ?_, ?_⟩
    · intro s v rest h
      simp [parseCore] at h
    · intro acc s v rest _ h
      simp [parseCore] at h
    · intro acc s v rest _ _ h
      simp [parseCore] at h
  | succ f ih =>
    obtain ⟨ihv, iha, iho⟩ := ih
    refine ⟨?_, ?_, ?_⟩
    · intro s v rest h
      simp only [parseCore] at h
      split at h
      · exact absurd h (by simp)
      · split at h
        · rcases hps : parseStringBody _ with _ | ⟨kchars, r2⟩ <;>
            rw [hps] at h
          · exact absurd h (by simp)
          · simp only [Option.map_some', Option.some.injEq,
              Prod.mk.injEq] at h
            rw [← h.1]
            rfl
        · split at h
          · split at h
            · injection h with h1
              injection h1 with h2 h3
              rw [← h2]
              rfl
            · exact iho [] _ v rest rfl rfl h
          · split at h
            · split at h
              · injection h with h1
                injection h1 with h2 h3
                rw [← h2]
                rfl
              · exact iha [] _ v rest rfl h
            · split at h
              · split at h
                · injection h with h1
                  injection h1 with h2 h3
                  rw [← h2]
                  rfl
                · exact absurd h (by simp)
              · split at h
                · split at h
                  · injection h with h1
                    injection h1 with h2 h3
                    rw [← h2]
                    rfl
                  · exact absurd h (by simp)
                · split at h
                  · split at h
                    · injection h with h1
                      injection h1 with h2 h3
                      rw [← h2]
                      rfl
                    · exact absurd h (by simp)
                  · rcases hpn : parseIntNum _ with _ | ⟨k, r2⟩ <;>
                      rw [hpn] at h
                    · exact absurd h (by simp)
                    · simp only [Option.map_some', Option.some.injEq,
                        Prod.mk.injEq] at h
                      rw [← h.1]
                      rfl
    · intro acc s v rest hacc h
      simp only [parseCore] at h
      split at h
      · exact absurd h (by simp)
      · rename_i v1 r1 heq
        have hv1 : wfJson v1 = true := ihv s v1 r1 heq
        split at h
        · exact iha (acc ++ [v1]) _ v rest
            (by rw [wfList_append]; simp [wfList, hacc, hv1]) h
        · injection h with h1
          injection h1 with h2 h3
          rw [← h2,
            show wfJson (.arr (acc ++ [v1])) = wfList (acc ++ [v1]) from rfl,
            wfList_append]
          simp [wfList, hacc, hv1]
        · exact absurd h (by simp)
    · intro acc s v rest hnd hwfa h
      simp only [parseCore] at h
      split at h
      · rename_i r0 heq0
        split at h
        · exact absurd h (by simp)
        · rename_i kchars r2 heq2
          split at h
          · rename_i rest3 heq3
            split at h
            · exact absurd h (by simp)
            · rename_i v1 r4 heq4
              have hv1 : wfJson v1 = true := ihv _ _ _ heq4
              split at h
              · exact iho (objInsert acc ⟨kchars⟩ v1) _ v rest
                  (objInsert_noDupKeys _ _ _ hnd)
                  (objInsert_wfFields _ _ _ hv1 hwfa) h
              · injection h with h1
                injection h1 with h2 h3
                rw [← h2, show wfJson (.obj (objInsert acc ⟨kchars⟩ v1))
                    = (noDupKeys (objInsert acc ⟨kchars⟩ v1)
                      && wfFields (objInsert acc ⟨kchars⟩ v1)) from rfl]
                simp [objInsert_noDupKeys _ _ _ hnd,
                  objInsert_wfFields _ _ _ hv1 hwfa]
              · exact absurd h (by simp)
          · exact absurd h (by simp)
      · exact absurd h (by simp)

/-- The nesting measure never exceeds the dumped length, so the fuel
`jsonParseL` allots always covers a re-parse of a dump. -/
theorem jm_le_dump (n : Nat) :
    (∀ v ind, jmeasure v ≤ n → jmeasure v ≤ (dumpVal ind v).length) ∧
    (∀ xs ind, lmArr xs ≤ n → lmArr xs ≤ (dumpArrTail ind xs).length) ∧
    (∀ fs ind, lmObj fs ≤ n → lmObj fs ≤ (dumpObjTail ind fs).length) := by
  induction n with
  | zero =>
    refine ⟨?_, ?_, ?_⟩
    · intro v ind hm
      have := jmeasure_pos v
      omega
    · intro xs ind hm
      cases xs with
      | nil => simp [lmArr]
      | cons x xs' => exact absurd hm (by simp only [lmArr]; omega)
    · intro fs ind hm
      cases fs with
      | nil => simp [lmObj]
      | cons kv fs' => exact absurd hm (by simp only [lmObj]; omega)
  | succ m ih =>
    obtain ⟨ihv, iha, iho⟩ := ih
    refine ⟨?_, ?_, ?_⟩
    · intro v ind hm
      cases v with
      | null => simp [jmeasure, dumpVal]
      | bool b => cases b <;> simp [jmeasure, dumpVal]
      | num k =>
        rcases intToChars_shape k with ⟨c, cs, hic, -⟩
        simp [jmeasure, dumpVal, hic]
      | str s => simp [jmeasure, dumpVal, dumpStrL]
      | arr xs =>
        cases xs with
        | nil => simp [jmeasure, lmArr, dumpVal, dumpArr]
        | cons x xs' =>
          have h1 : jmeasure x ≤ m := by
            simp only [jmeasure, lmArr] at hm
            omega
          have h2 : lmArr xs' ≤ m := by
            simp only [jmeasure, lmArr] at hm
            omega
          have b1 := ihv x (ind+2) h1
          have b2 := iha xs' (ind+2) h2
          simp only [jmeasure, lmArr, dumpVal, dumpArr]
          simp [spacesC]
          omega
      | obj fs =>
        cases fs with
        | nil => simp [jmeasure, lmObj, dumpVal, dumpObj]
        | cons kv fs' =>
          have h1 : jmeasure kv.2 ≤ m := by
            simp only [jmeasure, lmObj] at hm
            omega
          have h2 : lmObj fs' ≤ m := by
            simp only [jmeasure, lmObj] at hm
            omega
          have b1 := ihv kv.2 (ind+2) h1
          have b2 := iho fs' (ind+2) h2
          simp only [jmeasure, lmObj, dumpVal, dumpObj]
          simp [spacesC]
          omega
    · intro xs ind hm
      cases xs with
      | nil => simp [lmArr]
      | cons x xs' =>
        have h1 : jmeasure x ≤ m := by
          simp only [lmArr] at hm
          omega
        have h2 : lmArr xs' ≤ m := by
          simp only [lmArr] at hm
          omega
        have b1 := ihv x ind h1
        have b2 := iha xs' ind h2
        simp only [lmArr, dumpArrTail]
        simp [spacesC]
        omega
    · intro fs ind hm
      cases fs with
      | nil => simp [lmObj]
      | cons kv fs' =>
        have h1 : jmeasure kv.2 ≤ m := by
          simp only [lmObj] at hm
          omega
        have h2 : lmObj fs' ≤ m := by
          simp only [lmObj] at hm
          omega
        have b1 := ihv kv.2 ind h1
        have b2 := iho fs' ind h2
        simp only [lmObj, dumpObjTail]
        simp [spacesC]
        omega

theorem jsonParseL_core (t : List Char) (v : Json) (h : jsonParseL t = some v) :
    ∃ rest, parseCore (2 * t.length + 2) .val t = some (v, rest) := by
  unfold jsonParseL at h
  split at h
  · rename_i v1 r1 heq
    split at h
    · injection h with h1
      exact ⟨r1, by rw [heq, h1]⟩
    · exact absurd h (by simp)
  · exact absurd h (by simp)

/-- Dumping any well-formed value and re-parsing it with `json.loads`
recovers the value. -/
theorem dump_parse_top (v : Json) (hwf : wfJson v = true) :
    jsonParse (generate_json v) = some v := by
  have hb : jmeasure v ≤ (dumpVal 0 v).length :=
    (jm_le_dump (jmeasure v)).1 v 0 (le_refl _)
  have hfuel : jmeasure v ≤ 2 * (dumpVal 0 v).length + 2 := by omega
  have hp := (parse_dump (2 * (dumpVal 0 v).length + 2)).1 v 0 [] hwf hfuel
    (Or.inl rfl)
  rw [List.append_nil] at hp
  show jsonParseL (dumpVal 0 v) = some v
  unfold jsonParseL
  rw [hp]
  simp [skipWs]

/-- C9: for every record the response parser returns successfully, encoding
it with the JSON encoder (`generate_json`) and re-parsing the output as
JSON yields a record structurally equal to the input record, preserving
null scalars and empty sequences. -/
theorem json_roundtrip (s : String) (d : Json)
    (h : parse_business_card_response s = .ok d) :
    jsonParse (generate_json d) = some d := by
  unfold parse_business_card_response at h
  split at h
  · injection h with h1
    rw [← h1]
    exact dump_parse_top _ rfl
  · rename_i data heq
    obtain ⟨r, hr⟩ := jsonParseL_core _ _ heq
    have hwfd : wfJson data = true := (parseCore_wf _).1 _ _ _ hr
    split at h
    · rename_i fields
      injection h with h1
      rw [← h1]
      have hobj : noDupKeys fields = true ∧ wfFields fields = true := by
        simpa only [wfJson, Bool.and_eq_true] using hwfd
      have hwds : wfFields default_data = true := rfl
      have hf := wf_fillDefaults default_data fields hwds hobj.1 hobj.2
      refine dump_parse_top _ ?_
      show (noDupKeys (mergeDefaults fields)
        && wfFields (mergeDefaults fields)) = true
      simp [mergeDefaults, hf.1, hf.2]
    · split at h
      · injection h with h1
        rw [← h1]
        exact dump_parse_top _ rfl
      · exact Except.noConfusion h
    · split at h
      · injection h with h1
        rw [← h1]
        exact dump_parse_top _ hwfd
      · exact Except.noConfusion h
    · exact Except.noConfusion h

set_option maxRecDepth 8000 in
theorem json_roundtrip_witness :
    parse_business_card_response "oops" = .ok (.obj default_data) ∧
    jsonParse (generate_json (.obj default_data)) = some (.obj default_data) :=
  ⟨rfl, json_roundtrip "oops" (.obj default_data) rfl⟩
